import Mathlib

/-!
Verification of the brutalmaze maze engine (`brutalmaze/maze.py` together
with `brutalmaze/constants.py`) against its natural-language specification.

The grid, the generator, the scroll/rotation machinery, the wake resolver,
the combat resolver and the frame orchestrator are shallowly embedded below.
Python floats are modelled as real numbers; the global random source is
modelled by explicit streams of bits (`Nat → Bool`) and of choice indices
(`List Nat`), following the spec's own design note that generation should be
driven by an injected random source.  Helper functions that live in modules
not present in the sources (`utils.py`, `characters.py`, `weapons.py`) are
modelled from the spec and marked as such in their doc comments.
-/

namespace BrutalMaze

open scoped Classical

/-! ## Constants (from `constants.py`) -/

/-- SQRT2 from `constants.py`: `2 ** 0.5`. -/
noncomputable def SQRT2 : ℝ := Real.sqrt 2

/-- GOLDEN_MEAN from `constants.py`: `5**0.5/2 + 0.5`. -/
noncomputable def GOLDEN_MEAN : ℝ := Real.sqrt 5 / 2 + 1 / 2

/-- MAZE_SIZE from `constants.py`. -/
def MAZE_SIZE : ℕ := 12

/-- ROAD_WIDTH from `constants.py`. -/
def ROAD_WIDTH : ℕ := 5

/-- CELL_WIDTH from `constants.py`: `ROAD_WIDTH * 2`. -/
def CELL_WIDTH : ℕ := ROAD_WIDTH * 2

/-- MIDDLE from `constants.py`:
`(MAZE_SIZE + MAZE_SIZE%2 - 1)*ROAD_WIDTH + ROAD_WIDTH//2 = 57`. -/
def MIDDLE : ℤ := ((MAZE_SIZE + MAZE_SIZE % 2 - 1) * ROAD_WIDTH + ROAD_WIDTH / 2 : ℕ)

/-- LAST_ROW from `constants.py`: `(MAZE_SIZE-1) * ROAD_WIDTH * 2 = 110`. -/
def LAST_ROW : ℤ := ((MAZE_SIZE - 1) * ROAD_WIDTH * 2 : ℕ)

/-- Number of grid columns (and of rows): `CELL_WIDTH * MAZE_SIZE = 120`. -/
def GRID : ℕ := CELL_WIDTH * MAZE_SIZE

/-- INIT_SCORE from `constants.py`. -/
def INIT_SCORE : ℝ := 208.2016

/-- MOVE_SPEED from `constants.py` (grid/s). -/
def MOVE_SPEED : ℝ := 5

/-- Cell state EMPTY (from `EMPTY, WALL, HERO, ENEMY = range(4)`). -/
def EMPTY : ℕ := 0

/-- Cell state WALL. -/
def WALL : ℕ := 1

/-- Cell state HERO. -/
def HERO : ℕ := 2

/-- Cell state ENEMY. -/
def ENEMY : ℕ := 3

/-- ADJACENT_GRIDS from `constants.py`. -/
def ADJACENT_GRIDS : List (ℤ × ℤ) := [(1, 0), (0, 1), (-1, 0), (0, -1)]

/-- Every palette listed in `ENEMIES` in `constants.py` has exactly three
colour shades in `TANGO`, so `len(enemy.color) = 3` for every enemy. -/
def ENEMY_COLOR_LEN : ℕ := 3

/-! ## The grid (`self.map`: a deque of deque columns, indexed `map[x][y]`) -/

/-- The maze grid: a list of columns of cell values, as in the Python
deque-of-deques `self.map`. -/
abbrev Grid : Type := List (List ℕ)

/-- Python sequence index normalisation: a negative index counts from the
end of a sequence of length `n`. -/
def pyNat (n : ℕ) (i : ℤ) : ℕ := (if i < 0 then i + n else i).toNat

/-- Read `map[i][j]` with Python index semantics (out-of-range reads return
EMPTY; all reads performed by the engine are in range). -/
def getCell (m : Grid) (i j : ℤ) : ℕ :=
  let col := m.getD (pyNat m.length i) []
  col.getD (pyNat col.length j) EMPTY

/-- Write `map[i][j] = v` with Python index semantics (out-of-range writes
are dropped; all writes performed by the engine are in range). -/
def setCell (m : Grid) (i j : ℤ) (v : ℕ) : Grid :=
  let i' := pyNat m.length i
  let col := m.getD i' []
  m.set i' (col.set (pyNat col.length j) v)

/-- Python `deque.rotate(n)`: right-rotation of a sequence by `n` places
(left-rotation for negative `n`), no-op on the empty sequence. -/
def dequeRotate (n : ℤ) (l : List ℕ) : List ℕ :=
  l.rotate ((-n) % (l.length : ℤ)).toNat

/-- Rotation of the grid along the x axis: `self.map.rotate(x)`
(line 126 of `maze.py`). -/
def rotateMapX (x : ℤ) (m : Grid) : Grid :=
  (m.rotate ((-x) % (m.length : ℤ)).toNat : List (List ℕ))

/-- Rotation of the grid along the y axis:
`for d in self.map: d.rotate(y)` (line 130 of `maze.py`). -/
def rotateMapY (y : ℤ) (m : Grid) : Grid :=
  m.map (dequeRotate y)

/-! ## The grid generator -/

/-- `cell(bit, upper=True)` from `maze.py`: half of a cell of the maze based
on the given bit. -/
def cell (bit : Bool) (upper : Bool := true) : List ℕ :=
  if bit then List.replicate ROAD_WIDTH WALL ++ List.replicate ROAD_WIDTH EMPTY
  else if upper then List.replicate (ROAD_WIDTH * 2) WALL
  else List.replicate (ROAD_WIDTH * 2) EMPTY

/-- `new_column()` from `maze.py`, with the random source made explicit:
bit `k` of the stream is the `getrandbits(1)` draw of loop iteration `k`. -/
def newColumn (bits : ℕ → Bool) : Grid :=
  let upper := (List.range MAZE_SIZE).foldl (fun acc k => acc ++ cell (bits k)) []
  let lower := (List.range MAZE_SIZE).foldl (fun acc k => acc ++ cell (bits k) false) []
  List.replicate ROAD_WIDTH upper ++ List.replicate ROAD_WIDTH lower

/-! ## Characters, bullets and the maze state -/

/-- The slice of an `Enemy` (from the external `characters.py`) that
`maze.py` reads and mutates: grid position, wake flag, wound accumulator,
colour-stage count and melee state. -/
structure Enemy where
  x : ℤ
  y : ℤ
  awake : Bool
  wound : ℝ
  colorLen : ℕ
  spinQueue : Bool
  spinSpeed : ℝ

/-- The slice of the `Hero` (from the external `characters.py`) that
`maze.py` reads and mutates. -/
structure Hero where
  wound : ℝ
  colorLen : ℕ
  R : ℝ
  slashing : Bool
  spinSpeed : ℝ
  angle : ℝ

/-- The slice of a `Bullet` (from the external `weapons.py`) that `maze.py`
reads and mutates: continuous position, direction, colour and fall time. -/
structure Bullet where
  x : ℝ
  y : ℝ
  angle : ℝ
  fallTime : ℝ
  heroColor : Bool

/-- Modelled from the spec: parameters of the missing `weapons.py` module —
the bullet travel speed and `BULLET_LIFETIME` (the latter is referenced by
`maze.py` but defined nowhere in the sources). -/
structure BulletParams where
  speed : ℝ
  lifetime : ℝ

/-- The state of a `Maze` object: all attributes of the class that
`maze.py` reads or writes. -/
structure MazeState where
  w : ℤ
  h : ℤ
  fps : ℝ
  speed : ℝ
  distance : ℝ
  step : ℝ
  x : ℝ
  y : ℝ
  middlex : ℝ
  middley : ℝ
  offsetx : ℝ
  offsety : ℝ
  score : ℝ
  slashd : ℝ
  rangex : List ℤ
  rangey : List ℤ
  map : Grid
  right : ℤ
  down : ℤ
  rotatex : ℤ
  rotatey : ℤ
  bullets : List Bullet
  enemies : List Enemy
  hero : Hero

/-! ## Helpers from the missing `utils.py`, modelled from the spec -/

/-- Modelled from the spec: `utils.sign`, the mathematical sign function
(`sign(self.offsetx)` is used as an integer index offset). -/
noncomputable def signR (t : ℝ) : ℤ :=
  if 0 < t then 1 else if t < 0 then -1 else 0

/-- Modelled from the spec: `utils.pos(i, j, distance, mx, my)`, the single
affine mapping from grid-index space to continuous pixel space based on the
`distance` (pixels-per-cell) scalar (§3 of the spec). -/
def pos (i j : ℤ) (distance mx my : ℝ) : ℝ × ℝ :=
  (mx + ((i - MIDDLE : ℤ) : ℝ) * distance, my + ((j - MIDDLE : ℤ) : ℝ) * distance)

/-- Modelled from the spec: `utils.cosin θ = cos θ + sin θ` (the spec's
`mind = distance × (cos θ + sin θ)`). -/
noncomputable def cosin (t : ℝ) : ℝ := Real.cos t + Real.sin t

/-- Modelled from the spec: `utils.length`, the Euclidean distance between
two points of the continuous plane. -/
noncomputable def lengthXY (x1 y1 x2 y2 : ℝ) : ℝ :=
  Real.sqrt ((x2 - x1) ^ 2 + (y2 - y1) ^ 2)

/-- Modelled from the spec: `utils.round2`, rounding to the nearest integer
(used to map a continuous bullet position back to a grid index). -/
noncomputable def round2 (t : ℝ) : ℤ := ⌊t + 1 / 2⌋

/-- Modelled from the spec: `Enemy.pos(distance, mx, my)` — the enemy's
continuous position under the affine grid-to-pixel mapping (§3, §6). -/
def enemyPos (e : Enemy) (distance mx my : ℝ) : ℝ × ℝ :=
  pos e.x e.y distance mx my

/-- Modelled from the spec: `Enemy.update` advances only the enemy's own
motion/animation state (§4.6 step 5); none of the fields read by `maze.py`
change. -/
def enemyUpdate (e : Enemy) : Enemy := e

/-- Modelled from the spec: `Hero.update` advances only the hero's own
animation state (§4.6 step 5). -/
def heroUpdate (h : Hero) : Hero := h

/-- Modelled from the spec: `Bullet.update(fps, distance)` advances the
bullet along its direction (§6); the travel speed is the external
`BulletParams.speed`. -/
noncomputable def bulletUpdate (params : BulletParams) (fps distance : ℝ) (b : Bullet) : Bullet :=
  { b with x := b.x + Real.cos b.angle * distance * params.speed / fps,
           y := b.y + Real.sin b.angle * distance * params.speed / fps }

/-- Modelled from the spec: `Bullet.place(dx, dy, step)` translates the
bullet by the scroll delta of the frame (§4.6 step 3). -/
def bulletPlace (b : Bullet) (dx dy : ℤ) (step : ℝ) : Bullet :=
  { b with x := b.x + (dx : ℝ) * step, y := b.y + (dy : ℝ) * step }

/-! ## The visibility (wake) resolver — `Maze.wake`, lines 102-117 -/

/-- The inclusive integer range `[a, b]` as a list (Python
`range(a, b + 1)`). -/
def intRange (a b : ℤ) : List ℤ :=
  (List.range (b + 1 - a).toNat).map (fun k => a + (k : ℤ))

/-- The `dx` of `Maze.wake`:
`(enemy.x - MIDDLE)*self.distance + self.offsetx*self.step`. -/
def wakeDx (st : MazeState) (e : Enemy) : ℝ :=
  ((e.x - MIDDLE : ℤ) : ℝ) * st.distance + st.offsetx * st.step

/-- The `dy` of `Maze.wake`:
`(enemy.y - MIDDLE)*self.distance + self.offsety*self.step`. -/
def wakeDy (st : MazeState) (e : Enemy) : ℝ :=
  ((e.y - MIDDLE : ℤ) : ℝ) * st.distance + st.offsety * st.step

/-- The `mind` of `Maze.wake`:
`cosin(abs(atan(dy / dx)) if dx else 0) * self.distance`. -/
noncomputable def wakeMind (st : MazeState) (e : Enemy) : ℝ :=
  cosin (if wakeDx st e ≠ 0 then |Real.arctan (wakeDy st e / wakeDx st e)| else 0)
    * st.distance

/-- The bounding rectangle scanned by `Maze.wake`: all grid cells between
`(MIDDLE, MIDDLE)` and the enemy's cell, endpoints swapped so each range
is increasing, enumerated in loop order. -/
def wakeRect (e : Enemy) : List (ℤ × ℤ) :=
  (intRange (min MIDDLE e.x) (max MIDDLE e.x)).foldr
    (fun i acc => ((intRange (min MIDDLE e.y) (max MIDDLE e.y)).map (fun j => (i, j))) ++ acc)
    []

/-- The point-line distance computed by `Maze.wake` for the wall cell
`(i, j)`: `abs(dy*(x-self.x) - dx*(y-self.y)) / (dy**2 + dx**2)**0.5`. -/
noncomputable def wakeLineDist (st : MazeState) (e : Enemy) (i j : ℤ) : ℝ :=
  let p := pos i j st.distance st.middlex st.middley
  |wakeDy st e * (p.1 - st.x) - wakeDx st e * (p.2 - st.y)| /
    Real.sqrt ((wakeDy st e) ^ 2 + (wakeDx st e) ^ 2)

/-- The scan loop of `Maze.wake`: `True` when some WALL cell of the scanned
list lies within `mind` of the hero-enemy line (on which the loop returns
early, leaving the enemy asleep). -/
def wakeBlockedScan (st : MazeState) (e : Enemy) : List (ℤ × ℤ) → Prop
  | [] => False
  | p :: ps =>
      (getCell st.map p.1 p.2 = WALL ∧ wakeLineDist st e p.1 p.2 ≤ wakeMind st e)
        ∨ wakeBlockedScan st e ps

/-- `Maze.wake(enemy)`: wake the enemy up if it can see the hero. -/
noncomputable def wake (st : MazeState) (e : Enemy) : Enemy :=
  if wakeBlockedScan st e (wakeRect e) then e else { e with awake := true }

/-! ## The population manager — `Maze.add_enemy`, lines 78-90 -/

/-- The wall-cell candidate pool collected by `Maze.add_enemy`: every
`(i, j)` of `rangex × rangey` whose cell is WALL, in loop order. -/
def wallsOf (st : MazeState) : List (ℤ × ℤ) :=
  st.rangex.foldr
    (fun i acc =>
      ((st.rangey.filter (fun j => decide (getCell st.map i j = WALL))).map
        (fun j => (i, j))) ++ acc)
    []

/-- The `all(self.map[x + a][y + b] == WALL for a, b in ADJACENT_GRIDS)`
test of `Maze.add_enemy`: the cell is surrounded by walls on its four
orthogonal neighbours. -/
def wallSurrounded (m : Grid) (x y : ℤ) : Prop :=
  ∀ p ∈ ADJACENT_GRIDS, getCell m (x + p.1) (y + p.2) = WALL

instance (m : Grid) (x y : ℤ) : Decidable (wallSurrounded m x y) :=
  List.decidableBAll _ _

/-- A freshly instantiated `Enemy` at a wall cell (the external constructor
marks the grid with the ENEMY value, mirrored in `addEnemyLoop`; every
palette of `ENEMIES` has `ENEMY_COLOR_LEN` shades). -/
def mkEnemy (x y : ℤ) : Enemy :=
  { x := x, y := y, awake := false, wound := 0, colorLen := ENEMY_COLOR_LEN,
    spinQueue := false, spinSpeed := 1 }

/-- The `while` loop of `Maze.add_enemy`, with the random choices made
explicit: each iteration consumes one index from `choices`; drawing
`choice(walls)` is modelled as `walls[c % len(walls)]`.  The loop stops when
the pool is empty, when enough enemies are live, or when the supply of
random draws runs out. -/
noncomputable def addEnemyLoop (target : ℝ) :
    List ℕ → List (ℤ × ℤ) → List Enemy → Grid → List Enemy × Grid
  | [], _, enemies, m => (enemies, m)
  | c :: rest, walls, enemies, m =>
      if walls ≠ [] ∧ ((enemies.length : ℝ) < target) then
        let w := walls.getD (c % walls.length) (0, 0)
        if wallSurrounded m w.1 w.2 then
          addEnemyLoop target rest walls enemies m
        else
          addEnemyLoop target rest (walls.erase w) (enemies ++ [mkEnemy w.1 w.2])
            (setCell m w.1 w.2 ENEMY)
      else (enemies, m)

/-- `Maze.add_enemy()`: add enough enemies, the target count being
`log(score, GOLDEN_MEAN)`. -/
noncomputable def addEnemy (st : MazeState) (choices : List ℕ) : MazeState :=
  let walls := wallsOf st
  let target := Real.log st.score / Real.log GOLDEN_MEAN
  let r := addEnemyLoop target choices walls st.enemies st.map
  { st with enemies := r.1, map := r.2 }

/-! ## Rotation — `Maze.rotate`, lines 119-160 -/

/-- Modelled from the spec: `Enemy.place(dx, dy)` translates the enemy's
grid position together with the rotated grid content (§4.2). -/
def enemyPlace (e : Enemy) (dx dy : ℤ) : Enemy :=
  { e with x := e.x + dx, y := e.y + dy }

/-- The rotation phase of `Maze.rotate` (lines 121-131): clear the enemy
markers, rotate the grid along each requested axis, zero the corresponding
offsets and bump the rotation accumulators. -/
def rotateCore (st : MazeState) (x y : ℤ) : MazeState :=
  let m0 := st.enemies.foldl (fun m e => setCell m e.x e.y EMPTY) st.map
  let px := if x = 0 then (m0, st.offsetx, st.rotatex)
            else (rotateMapX x m0, 0, st.rotatex + x)
  let py := if y = 0 then (px.1, st.offsety, st.rotatey)
            else (rotateMapY y px.1, 0, st.rotatey + y)
  { st with map := py.1, offsetx := px.2.1, offsety := py.2.1,
            rotatex := px.2.2, rotatey := py.2.2 }

/-- The respawn phase of `Maze.rotate` (lines 133-141): translate every
enemy by the rotation, kill those now outside the visible index range, and
refill the population. -/
noncomputable def rotateRespawn (st : MazeState) (x y : ℤ) (choices : List ℕ) : MazeState :=
  let moved := st.enemies.map (fun e => enemyPlace e x y)
  let survivors := moved.filter (fun e => decide (e.x ∈ st.rangex ∧ e.y ∈ st.rangey))
  addEnemy { st with enemies := survivors } choices

/-- The write loop of the row-regeneration phase:
`for j, grid in enumerate(half): for k in range(ROAD_WIDTH):
self.map[c + k][LAST_ROW + j] = grid`. -/
def writeHalf (c : ℤ) (half : List ℕ) (m : Grid) : Grid :=
  (List.range half.length).foldl
    (fun m1 j =>
      (List.range ROAD_WIDTH).foldl
        (fun m2 k => setCell m2 (c + Int.ofNat k) (LAST_ROW + Int.ofNat j) (half.getD j EMPTY))
        m1)
    m

/-- The row-regeneration loop of `Maze.rotate` (lines 152-160), writing a
fresh cell-row's worth of wall pattern at the trailing row edge; `bits i`
is the `getrandbits(1)` draw of loop iteration `i`. -/
def regenRows (bits : ℕ → Bool) (rx : ℤ) (m : Grid) : Grid :=
  (List.range MAZE_SIZE).foldl
    (fun m1 i =>
      let b := bits i
      let c := ((i : ℤ) - 1) * (CELL_WIDTH : ℤ) + rx
      writeHalf (c + (ROAD_WIDTH : ℤ)) (cell b false) (writeHalf c (cell b) m1))
    m

/-- The column-regeneration phase of `Maze.rotate` (lines 144-149): when
the x rotation accumulator reaches `±CELL_WIDTH` it is reset, the trailing
`CELL_WIDTH` columns are dropped, a fresh column is appended, and its rows
are re-aligned by the accumulated y rotation. -/
def rotateRegenX (st : MazeState) (bits : ℕ → Bool) : MazeState :=
  if st.rotatex.natAbs = CELL_WIDTH then
    let m1 := List.take (st.map.length - CELL_WIDTH) st.map ++ newColumn bits
    let m2 := List.take (m1.length - CELL_WIDTH) m1 ++
      (List.drop (m1.length - CELL_WIDTH) m1).map (dequeRotate st.rotatey)
    { st with map := m2, rotatex := 0 }
  else st

/-- The row-regeneration phase of `Maze.rotate` (lines 150-160): when the
y rotation accumulator reaches `±CELL_WIDTH` it is reset and one cell-row's
worth of wall pattern is written at the trailing row edge. -/
def rotateRegenY (st : MazeState) (bits : ℕ → Bool) : MazeState :=
  if st.rotatey.natAbs = CELL_WIDTH then
    { st with map := regenRows bits st.rotatex st.map, rotatey := 0 }
  else st

/-- The edge-regeneration phase of `Maze.rotate` (lines 143-160); the
column phase runs before the row phase, and each draws from its own part of
the bit stream. -/
def rotateRegen (st : MazeState) (bits : ℕ → Bool) : MazeState :=
  rotateRegenY (rotateRegenX st bits) (fun i => bits (MAZE_SIZE + i))

/-- `Maze.rotate(x, y)`: rotate the maze by `(x, y)` and maintain the
enemy population and the far edge of the grid. -/
noncomputable def rotate (st : MazeState) (x y : ℤ) (bits : ℕ → Bool)
    (choices : List ℕ) : MazeState :=
  if x = 0 ∧ y = 0 then st
  else rotateRegen (rotateRespawn (rotateCore st x y) x y choices) bits

/-! ## Combat — `Maze.slash` (lines 162-183) and `Maze.track_bullets`
(lines 185-212) -/

/-- The first loop of `Maze.slash`: every enemy currently mid-attack wounds
the hero by its penetration depth normalised by hero radius and enemy spin
speed. -/
noncomputable def slashHeroWound (st : MazeState) : ℝ :=
  st.enemies.foldl
    (fun w e =>
      if e.spinQueue then
        let p := enemyPos e st.distance st.middlex st.middley
        let d := st.slashd - lengthXY p.1 p.2 st.x st.y
        if d ≥ 0 then w + d / st.hero.R / e.spinSpeed else w
      else w)
    st.hero.wound

/-- The hero-slash scan of `Maze.slash`: every enemy within `slashd` takes
`(slashd - d) / unit` wound; an enemy whose wound reaches its colour-stage
count dies and contributes its wound to the score.  Returns the surviving
enemies (wounds updated) and the score gained. -/
noncomputable def slashScan (slashd unit distance mx my hx hy : ℝ) :
    List Enemy → List Enemy × ℝ
  | [] => ([], 0)
  | e :: rest =>
      let p := enemyPos e distance mx my
      let d := lengthXY p.1 p.2 hx hy
      let r := slashScan slashd unit distance mx my hx hy rest
      if d ≤ slashd then
        let w := e.wound + (slashd - d) / unit
        if w ≥ (e.colorLen : ℝ) then (r.1, r.2 + w)
        else ({ e with wound := w } :: r.1, r.2)
      else (e :: r.1, r.2)

/-- `Maze.slash()`: handle close-ranged attacks, then refill the enemy
population. -/
noncomputable def slash (st : MazeState) (choices : List ℕ) : MazeState :=
  let st1 := { st with hero := { st.hero with wound := slashHeroWound st } }
  if st1.hero.slashing then
    let unit := st1.distance / SQRT2 * st1.hero.spinSpeed
    let r := slashScan st1.slashd unit st1.distance st1.middlex st1.middley
      st1.x st1.y st1.enemies
    addEnemy { st1 with enemies := r.1, score := st1.score + r.2 } choices
  else st1

/-- The enemy scan of `Maze.track_bullets` for one hero-coloured bullet:
the first enemy within one `distance` unit of the bullet takes the wound
`w`; if its total wound reaches its colour-stage count it is removed and
its wound is the score gained.  Returns the enemies after the scan, the
score gained and whether a hit occurred. -/
noncomputable def bulletHitScan (distance mx my bx bly w : ℝ) :
    List Enemy → List Enemy × ℝ × Bool
  | [] => ([], 0, false)
  | e :: rest =>
      let p := enemyPos e distance mx my
      if lengthXY bx bly p.1 p.2 < distance then
        let w' := e.wound + w
        if w' ≥ (e.colorLen : ℝ) then (rest, w', true)
        else ({ e with wound := w' } :: rest, 0, true)
      else
        let r := bulletHitScan distance mx my bx bly w rest
        (e :: r.1, r.2.1, r.2.2)

/-- The bullet loop of `Maze.track_bullets`, threading the enemies, the
score and the hero wound through the scan; returns the surviving bullets
(positions updated) and the new enemies, score and hero wound. -/
noncomputable def trackLoop (params : BulletParams) (fps distance x y mx my : ℝ)
    (m : Grid) (time : ℝ) :
    List Bullet → List Enemy → ℝ → ℝ → List Bullet × List Enemy × ℝ × ℝ
  | [], es, sc, hw => ([], es, sc, hw)
  | b :: rest, es, sc, hw =>
      let w := (b.fallTime - time) / params.lifetime
      let b' := bulletUpdate params fps distance b
      if w < 0 then trackLoop params fps distance x y mx my m time rest es sc hw
      else if b.heroColor then
        let gx := MIDDLE + round2 ((b'.x - x) / distance)
        let gy := MIDDLE + round2 ((b'.y - y) / distance)
        if getCell m gx gy = WALL then
          trackLoop params fps distance x y mx my m time rest es sc hw
        else
          let h := bulletHitScan distance mx my b'.x b'.y w es
          if h.2.2 then
            trackLoop params fps distance x y mx my m time rest h.1 (sc + h.2.1) hw
          else
            let r := trackLoop params fps distance x y mx my m time rest h.1 (sc + h.2.1) hw
            (b' :: r.1, r.2)
      else if lengthXY b'.x b'.y x y < distance then
        trackLoop params fps distance x y mx my m time rest es sc (hw + w)
      else
        let r := trackLoop params fps distance x y mx my m time rest es sc hw
        (b' :: r.1, r.2)

/-- `Maze.track_bullets()`: handle the bullets; `time` is the external
`pygame.time.get_ticks()` reading of the frame. -/
noncomputable def trackBullets (st : MazeState) (time : ℝ) (params : BulletParams) :
    MazeState :=
  let r := trackLoop params st.fps st.distance st.x st.y st.middlex st.middley
    st.map time st.bullets st.enemies st.score st.hero.wound
  { st with bullets := r.1, enemies := r.2.1, score := r.2.2.1,
            hero := { st.hero with wound := r.2.2.2 } }

/-! ## The frame orchestrator — `Maze.update`, lines 214-263 -/

/-- The x-axis leg of the scroll/offset controller (lines 222-231 of
`maze.py`): tentatively add the requested direction to the offset, then
revert it when one of the three gating cells straddling the centreline at
twice the offset's sign is non-EMPTY and the offset's pixel-equivalent
magnitude exceeds the clearance threshold `d`.  Returns the new offset and
the directional delta `dx` of the frame. -/
noncomputable def gateX (m : Grid) (right : ℤ) (ox step d : ℝ) : ℝ × ℤ :=
  if right ≠ 0 then
    let t := ox + (right : ℝ)
    let s := signR t * 2
    if (getCell m (MIDDLE - s) (MIDDLE - 1) ≠ EMPTY ∨
        getCell m (MIDDLE - s) MIDDLE ≠ EMPTY ∨
        getCell m (MIDDLE - s) (MIDDLE + 1) ≠ EMPTY) ∧ |t * step| > d
    then (ox, 0) else (t, right)
  else (ox, 0)

/-- The y-axis leg of the scroll/offset controller (lines 232-241 of
`maze.py`), gating on the three cells straddling the horizontal
centreline. -/
noncomputable def gateY (m : Grid) (down : ℤ) (oy step d : ℝ) : ℝ × ℤ :=
  if down ≠ 0 then
    let t := oy + (down : ℝ)
    let s := signR t * 2
    if (getCell m (MIDDLE - 1) (MIDDLE - s) ≠ EMPTY ∨
        getCell m MIDDLE (MIDDLE - s) ≠ EMPTY ∨
        getCell m (MIDDLE + 1) (MIDDLE - s) ≠ EMPTY) ∧ |t * step| > d
    then (oy, 0) else (t, down)
  else (oy, 0)

/-- `Maze.update(fps)`: one frame of the simulation.  The explicit
parameters stand for the external world: the frame rate, the random streams
consumed by rotation and by the two `add_enemy` call sites, the clock
reading and the bullet parameters.  The returned flag records whether
`Maze.lose` — which calls the Python built-in `quit()`, terminating the
interpreter — was invoked at the end of the frame. -/
noncomputable def update (st : MazeState) (fps : ℝ) (bits : ℕ → Bool)
    (rotChoices slashChoices : List ℕ) (time : ℝ) (params : BulletParams) :
    MazeState × Bool :=
  let ox0 := st.offsetx * (fps / st.fps)
  let oy0 := st.offsety * (fps / st.fps)
  let speed := fps / MOVE_SPEED
  let step := st.distance / speed
  let d := st.distance * 1.5 - st.hero.R
  let gx := gateX st.map st.right ox0 step d
  let gy := gateY st.map st.down oy0 step d
  let st0 := { st with fps := fps, speed := speed, step := step,
                       offsetx := gx.1, offsety := gy.1 }
  let stM :=
    if gx.2 ≠ 0 ∨ gy.2 ≠ 0 then
      let stA := { st0 with map := setCell st0.map MIDDLE MIDDLE EMPTY }
      let rx := signR stA.offsetx * (if |stA.offsetx| ≥ speed then 1 else 0)
      let ry := signR stA.offsety * (if |stA.offsety| ≥ speed then 1 else 0)
      let stB := rotate stA rx ry bits rotChoices
      let stC := { stB with map := setCell stB.map MIDDLE MIDDLE HERO,
                            middlex := stB.x + stB.offsetx * stB.step,
                            middley := stB.y + stB.offsety * stB.step }
      let stD := { stC with
        enemies := stC.enemies.map (fun e => if e.awake then e else wake stC e),
        bullets := stC.bullets.map (fun b => bulletPlace b gx.2 gy.2 stC.step) }
      stD
    else st0
  let stE := { stM with enemies := stM.enemies.map enemyUpdate,
                        hero := heroUpdate stM.hero }
  let stF := slash stE slashChoices
  let stG := trackBullets stF time params
  (stG, if stG.hero.wound + 1 > (stG.hero.colorLen : ℝ) then true else false)

/-! ## Construction — `Maze.__init__`, lines 56-76 -/

/-- Modelled from the spec: the freshly constructed `Hero` of the missing
`characters.py`.  The hero uses the six-shade Aluminium palette of
`constants.py`, starts unwounded and not slashing; its radius and spin
speed are external parameters. -/
def initHero (heroR spin : ℝ) : Hero :=
  { wound := 0, colorLen := 6, R := heroR, slashing := false,
    spinSpeed := spin, angle := 0 }

/-- `Maze.__init__(size, fps)`: build the initial maze state.  Column `k`
of the initial grid draws its bits from `bits (MAZE_SIZE * k + i)`; the
initial `add_enemy` consumes `choices`. -/
noncomputable def mkMaze (w h : ℤ) (fps heroR spin : ℝ) (bits : ℕ → Bool)
    (choices : List ℕ) : MazeState :=
  let speed := fps / MOVE_SPEED
  let distance := Real.sqrt (((w * h : ℤ) : ℝ) / 416)
  let step := distance / speed
  let hx := ((w / 2 : ℤ) : ℝ)
  let hy := ((h / 2 : ℤ) : ℝ)
  let wr := ⌊(w : ℝ) / distance / 2 + 2⌋
  let hr := ⌊(h : ℝ) / distance / 2 + 2⌋
  let m0 := (List.range MAZE_SIZE).foldl
    (fun m k => m ++ newColumn (fun i => bits (MAZE_SIZE * k + i))) []
  let st0 : MazeState :=
    { w := w, h := h, fps := fps, speed := speed, distance := distance,
      step := step, x := hx, y := hy, middlex := hx, middley := hy,
      offsetx := 0, offsety := 0, score := INIT_SCORE,
      slashd := heroR + distance / SQRT2,
      rangex := intRange (MIDDLE - wr) (MIDDLE + wr),
      rangey := intRange (MIDDLE - hr) (MIDDLE + hr),
      map := m0, right := 0, down := 0, rotatex := 0, rotatey := 0,
      bullets := [], enemies := [], hero := initHero heroR spin }
  let st1 := addEnemy st0 choices
  { st1 with map := setCell st1.map MIDDLE MIDDLE HERO }

/-! ## Concrete states used to instantiate the theorems -/

/-- A hero with benign concrete attribute values. -/
def plainHero : Hero :=
  { wound := 0, colorLen := 6, R := 1, slashing := false, spinSpeed := 1, angle := 0 }

/-- A minimal concrete maze state: empty grid and ranges, no characters in
flight, benign scalar values.  Instantiations override single fields. -/
noncomputable def baseState : MazeState :=
  { w := 0, h := 0, fps := 30, speed := 6, distance := 1, step := 1 / 6,
    x := 0, y := 0, middlex := 0, middley := 0, offsetx := 0, offsety := 0,
    score := INIT_SCORE, slashd := 0, rangex := [], rangey := [], map := [],
    right := 0, down := 0, rotatex := 0, rotatey := 0, bullets := [],
    enemies := [], hero := plainHero }

/-- A concrete all-wall grid of 60 × 60 cells. -/
def wallGrid : Grid := List.replicate 60 (List.replicate 60 WALL)

/-- A concrete state heading right into a wall: the three gating cells are
WALL and the hero radius is large enough that the clearance threshold is
exceeded. -/
noncomputable def gateState : MazeState :=
  { baseState with right := 1, map := wallGrid, hero := { plainHero with R := 7 } }

/-- The all-wall grid with the HERO marker at the logical centre. -/
def heroWallGrid : Grid := setCell wallGrid MIDDLE MIDDLE HERO

/-- A concrete state whose grid is all WALL except the HERO marker at the
centre. -/
noncomputable def wakeSeeState : MazeState := { baseState with map := heroWallGrid }

/-- A concrete quiet state whose hero has just exceeded the maximum wound
(`6 + 1 > 6` colour stages). -/
noncomputable def deadState : MazeState :=
  { baseState with hero := { plainHero with wound := 6 } }

/-- A concrete hero-coloured bullet at the hero's pixel position. -/
def heroBullet : Bullet :=
  { x := 0, y := 0, angle := 0, fallTime := 1, heroColor := true }

/-- A concrete enemy five cells right of the centre (out of bullet reach). -/
def farEnemy : Enemy := mkEnemy (MIDDLE + 5) MIDDLE

/-- A concrete enemy on the centre cell whose wound `5/2` is just below its
death threshold of `3` colour stages. -/
noncomputable def nearEnemy : Enemy := { mkEnemy MIDDLE MIDDLE with wound := 5 / 2 }

/-- A concrete state with one hero bullet in flight and two enemies, the
first out of reach and the second within one `distance` unit. -/
noncomputable def bulletState : MazeState :=
  { baseState with bullets := [heroBullet], enemies := [farEnemy, nearEnemy] }

/-- A concrete 16 × 16 empty grid with three WALL cells in column 10, none
of them surrounded by walls. -/
def popGrid : Grid :=
  setCell (setCell (setCell (List.replicate 16 (List.replicate 16 EMPTY))
    10 10 WALL) 10 12 WALL) 10 14 WALL

/-- A concrete state for the population manager: score `GOLDEN_MEAN ^ 3`
(so the target count is exactly 3), no live enemies, and a visible range
containing exactly the three eligible wall cells of `popGrid`. -/
noncomputable def popState : MazeState :=
  { baseState with
      score := GOLDEN_MEAN ^ 3, map := popGrid,
      rangex := [10], rangey := [10, 12, 14] }

/-! ## Grid invariants (the data-model invariant of §3 of the spec) -/

/-- The grid has its full `GRID × GRID` (120 × 120) dimensions. -/
def dims (m : Grid) : Prop :=
  m.length = GRID ∧ ∀ col ∈ m, col.length = GRID

/-- No cell of the grid holds the HERO marker. -/
def noHeroGrid (m : Grid) : Prop :=
  ∀ col ∈ m, ∀ v ∈ col, v ≠ HERO

/-- Exactly one cell of the (well-dimensioned) grid holds the HERO marker,
namely the fixed logical centre `(MIDDLE, MIDDLE)`. -/
def heroInv (m : Grid) : Prop :=
  dims m ∧ ∀ i j : ℤ, 0 ≤ i → i < (GRID : ℤ) → 0 ≤ j → j < (GRID : ℤ) →
    (getCell m i j = HERO ↔ (i = MIDDLE ∧ j = MIDDLE))

/-- Full dimensions and no HERO marker anywhere: the grid state in the
middle of a frame, after the centre cell has been cleared. -/
def gridOK (m : Grid) : Prop := dims m ∧ noHeroGrid m

/-- A concrete all-EMPTY grid of the full 120 × 120 dimensions. -/
def emptyGrid120 : Grid := List.replicate GRID (List.replicate GRID EMPTY)

/-- The full-size empty grid with the HERO marker at the centre. -/
def heroGrid120 : Grid := setCell emptyGrid120 MIDDLE MIDDLE HERO

/-- A concrete state carrying the full-size hero-marked grid. -/
noncomputable def heroState : MazeState := { baseState with map := heroGrid120 }

/-! # Theorems -/

/-! ## Generic list facts -/

theorem rotate_cancel {α : Type} (l : List α) (a b : ℕ)
    (h : (a + b) % l.length = 0) : (l.rotate a).rotate b = l := by
  rw [List.rotate_rotate, ← List.rotate_mod, h, List.rotate_zero]

theorem emod_rotate_sum (n : ℕ) (hn : 0 < n) :
    (((-1 : ℤ) % (n : ℤ)).toNat + ((1 : ℤ) % (n : ℤ)).toNat) % n = 0 := by
  have h1 : (-1 : ℤ) % (n : ℤ) = (n : ℤ) - 1 := by
    have ha : ((-1 : ℤ) + (n : ℤ) * 1) % (n : ℤ) = (-1 : ℤ) % (n : ℤ) :=
      Int.add_mul_emod_self_left (-1) ((n : ℤ)) 1
    have hb : ((-1 : ℤ) + (n : ℤ) * 1) = (n : ℤ) - 1 := by ring
    rw [hb] at ha
    rw [← ha]
    exact Int.emod_eq_of_lt (by omega) (by omega)
  rcases eq_or_lt_of_le hn with h | h
  · have hn1 : n = 1 := h.symm
    subst hn1
    simp [Nat.mod_one]
  · have h2 : (1 : ℤ) % (n : ℤ) = 1 := Int.emod_eq_of_lt (by omega) (by omega)
    rw [h1, h2]
    have h3 : ((n : ℤ) - 1).toNat = n - 1 := by omega
    have h4 : ((1 : ℤ)).toNat = 1 := rfl
    rw [h3, h4]
    have h5 : n - 1 + 1 = n := by omega
    rw [h5, Nat.mod_self]

/-! ## Field-preservation facts for the rotation pipeline -/

theorem addEnemy_offsetx (st : MazeState) (c : List ℕ) :
    (addEnemy st c).offsetx = st.offsetx := rfl

theorem addEnemy_offsety (st : MazeState) (c : List ℕ) :
    (addEnemy st c).offsety = st.offsety := rfl

theorem rotateRespawn_offsetx (st : MazeState) (x y : ℤ) (c : List ℕ) :
    (rotateRespawn st x y c).offsetx = st.offsetx := rfl

theorem rotateRespawn_offsety (st : MazeState) (x y : ℤ) (c : List ℕ) :
    (rotateRespawn st x y c).offsety = st.offsety := rfl

theorem rotateRegenX_offsetx (st : MazeState) (bits : ℕ → Bool) :
    (rotateRegenX st bits).offsetx = st.offsetx := by
  unfold rotateRegenX
  split <;> rfl

theorem rotateRegenY_offsetx (st : MazeState) (bits : ℕ → Bool) :
    (rotateRegenY st bits).offsetx = st.offsetx := by
  unfold rotateRegenY
  split <;> rfl

theorem rotateRegen_offsetx (st : MazeState) (bits : ℕ → Bool) :
    (rotateRegen st bits).offsetx = st.offsetx := by
  unfold rotateRegen
  rw [rotateRegenY_offsetx, rotateRegenX_offsetx]

theorem rotateRegenX_offsety (st : MazeState) (bits : ℕ → Bool) :
    (rotateRegenX st bits).offsety = st.offsety := by
  unfold rotateRegenX
  split <;> rfl

theorem rotateRegenY_offsety (st : MazeState) (bits : ℕ → Bool) :
    (rotateRegenY st bits).offsety = st.offsety := by
  unfold rotateRegenY
  split <;> rfl

theorem rotateRegen_offsety (st : MazeState) (bits : ℕ → Bool) :
    (rotateRegen st bits).offsety = st.offsety := by
  unfold rotateRegen
  rw [rotateRegenY_offsety, rotateRegenX_offsety]

theorem rotateCore_offsetx (st : MazeState) (x y : ℤ) (hx : x ≠ 0) :
    (rotateCore st x y).offsetx = 0 := by
  unfold rotateCore
  simp [hx]

theorem rotateCore_offsety (st : MazeState) (x y : ℤ) (hy : y ≠ 0) :
    (rotateCore st x y).offsety = 0 := by
  unfold rotateCore
  simp [hy]

theorem rotateCore_offsetx_zero (st : MazeState) (y : ℤ) :
    (rotateCore st 0 y).offsetx = st.offsetx := by
  unfold rotateCore
  simp

theorem rotateCore_offsety_zero (st : MazeState) (x : ℤ) :
    (rotateCore st x 0).offsety = st.offsety := by
  unfold rotateCore
  simp

theorem rotateCore_rotatex (st : MazeState) (x y : ℤ) (hx : x ≠ 0) :
    (rotateCore st x y).rotatex = st.rotatex + x := by
  unfold rotateCore
  simp [hx]

theorem rotateCore_rotatey (st : MazeState) (x y : ℤ) (hy : y ≠ 0) :
    (rotateCore st x y).rotatey = st.rotatey + y := by
  unfold rotateCore
  simp [hy]

theorem rotate_offsetx_of_ne (st : MazeState) (x y : ℤ) (bits : ℕ → Bool)
    (c : List ℕ) (hx : x ≠ 0) : (rotate st x y bits c).offsetx = 0 := by
  unfold rotate
  rw [if_neg (by simp [hx])]
  rw [rotateRegen_offsetx, rotateRespawn_offsetx, rotateCore_offsetx _ _ _ hx]

theorem rotate_offsety_of_ne (st : MazeState) (x y : ℤ) (bits : ℕ → Bool)
    (c : List ℕ) (hy : y ≠ 0) : (rotate st x y bits c).offsety = 0 := by
  unfold rotate
  rw [if_neg (by simp [hy])]
  rw [rotateRegen_offsety, rotateRespawn_offsety, rotateCore_offsety _ _ _ hy]

theorem rotate_offsetx_of_zero (st : MazeState) (y : ℤ) (bits : ℕ → Bool)
    (c : List ℕ) : (rotate st 0 y bits c).offsetx = st.offsetx := by
  unfold rotate
  split
  · rfl
  · rw [rotateRegen_offsetx, rotateRespawn_offsetx, rotateCore_offsetx_zero]

theorem rotate_offsety_of_zero (st : MazeState) (x : ℤ) (bits : ℕ → Bool)
    (c : List ℕ) : (rotate st x 0 bits c).offsety = st.offsety := by
  unfold rotate
  split
  · rfl
  · rw [rotateRegen_offsety, rotateRespawn_offsety, rotateCore_offsety_zero]

theorem slash_offsetx (st : MazeState) (c : List ℕ) :
    (slash st c).offsetx = st.offsetx := by
  unfold slash
  dsimp only
  split <;> rfl

theorem slash_offsety (st : MazeState) (c : List ℕ) :
    (slash st c).offsety = st.offsety := by
  unfold slash
  dsimp only
  split <;> rfl

theorem trackBullets_offsetx (st : MazeState) (t : ℝ) (p : BulletParams) :
    (trackBullets st t p).offsetx = st.offsetx := rfl

theorem trackBullets_offsety (st : MazeState) (t : ℝ) (p : BulletParams) :
    (trackBullets st t p).offsety = st.offsety := rfl

/-! ## C1 — the half-column generator -/

/-- C1, counterexample: at `bit = 1` for the lower half, `cell` returns
`ROAD_WIDTH` WALLs followed by `ROAD_WIDTH` EMPTYs — not, as the claim
states, `ROAD_WIDTH` EMPTYs followed by `ROAD_WIDTH` WALLs (and not a
uniform run either), so the claim is false at `(bit, upper) = (1, False)`. -/
theorem cell_lower_claim_false :
    ¬ ((cell true false).length = 2 * ROAD_WIDTH ∧
       (cell true false = List.replicate (2 * ROAD_WIDTH) WALL ∨
        cell true false = List.replicate (2 * ROAD_WIDTH) EMPTY ∨
        cell true false =
          List.replicate ROAD_WIDTH EMPTY ++ List.replicate ROAD_WIDTH WALL)) := by
  decide

/-- C1, amended: for every input bit and both positions the half-column has
length `2×ROAD_WIDTH` and is uniformly WALL, uniformly EMPTY, or exactly
`ROAD_WIDTH` WALLs followed by `ROAD_WIDTH` EMPTYs — the half/half pattern
is WALL-then-EMPTY for the upper *and* the lower generator alike. -/
theorem cell_halfColumn_shape :
    ∀ b u : Bool,
      (cell b u).length = 2 * ROAD_WIDTH ∧
      (cell b u = List.replicate (2 * ROAD_WIDTH) WALL ∨
       cell b u = List.replicate (2 * ROAD_WIDTH) EMPTY ∨
       cell b u = List.replicate ROAD_WIDTH WALL ++ List.replicate ROAD_WIDTH EMPTY) := by
  decide

/-! ## C4 — rotation round-trip -/

theorem rotateMapX_roundtrip (m : Grid) : rotateMapX (-1) (rotateMapX 1 m) = m := by
  rcases eq_or_ne m [] with h | h
  · subst h; rfl
  · unfold rotateMapX
    rw [List.length_rotate, neg_neg]
    exact rotate_cancel m _ _ (emod_rotate_sum m.length (List.length_pos.mpr h))

theorem dequeRotate_roundtrip (l : List ℕ) : dequeRotate (-1) (dequeRotate 1 l) = l := by
  rcases eq_or_ne l [] with h | h
  · subst h; rfl
  · unfold dequeRotate
    rw [List.length_rotate, neg_neg]
    exact rotate_cancel l _ _ (emod_rotate_sum l.length (List.length_pos.mpr h))

theorem rotateMapY_roundtrip (m : Grid) : rotateMapY (-1) (rotateMapY 1 m) = m := by
  unfold rotateMapY
  rw [List.map_map]
  have h : m.map (dequeRotate (-1) ∘ dequeRotate 1) = m.map id :=
    List.map_congr_left (fun l _ => dequeRotate_roundtrip l)
  rw [h, List.map_id]

/-- C4: rotating the grid of any maze state by `+1` and then by `-1` on the
same axis — columns via the whole-sequence rotation `rotateMapX`, rows via
the per-row rotation `rotateMapY`, exactly as `Maze.rotate` lines 126 and
130 do — restores the original grid content bit-for-bit. -/
theorem rotate_grid_roundtrip (st : MazeState) :
    rotateMapX (-1) (rotateMapX 1 st.map) = st.map ∧
    rotateMapY (-1) (rotateMapY 1 st.map) = st.map :=
  ⟨rotateMapX_roundtrip st.map, rotateMapY_roundtrip st.map⟩

/-! ## C3 — rotation events zero the offset and bump the accumulator -/

/-- C3: whenever `Maze.rotate` is invoked with a nonzero argument on an
axis (a rotation event on that axis), the offset on that axis is zero after
the whole call, and the rotation phase (lines 124-131) leaves the rotation
accumulator incremented by exactly the rotation amount. -/
theorem rotate_event_resets_offset (st : MazeState) (x y : ℤ) (bits : ℕ → Bool)
    (choices : List ℕ) :
    (x ≠ 0 →
      (rotate st x y bits choices).offsetx = 0 ∧
      (rotateCore st x y).rotatex = st.rotatex + x) ∧
    (y ≠ 0 →
      (rotate st x y bits choices).offsety = 0 ∧
      (rotateCore st x y).rotatey = st.rotatey + y) :=
  ⟨fun hx => ⟨rotate_offsetx_of_ne st x y bits choices hx,
              rotateCore_rotatex st x y hx⟩,
   fun hy => ⟨rotate_offsety_of_ne st x y bits choices hy,
              rotateCore_rotatey st x y hy⟩⟩

/-! ## C2 — the wall-collision gate fully rejects the move -/

theorem gateX_reject (m : Grid) (right : ℤ) (ox step d : ℝ)
    (hr : right ≠ 0)
    (h1 : getCell m (MIDDLE - signR (ox + (right : ℝ)) * 2) (MIDDLE - 1) = WALL)
    (hm : |(ox + (right : ℝ)) * step| > d) :
    gateX m right ox step d = (ox, 0) := by
  unfold gateX
  rw [if_pos hr]
  dsimp only
  rw [if_pos ⟨Or.inl (by rw [h1]; decide), hm⟩]

theorem gateY_reject (m : Grid) (down : ℤ) (oy step d : ℝ)
    (hd : down ≠ 0)
    (h1 : getCell m (MIDDLE - 1) (MIDDLE - signR (oy + (down : ℝ)) * 2) = WALL)
    (hm : |(oy + (down : ℝ)) * step| > d) :
    gateY m down oy step d = (oy, 0) := by
  unfold gateY
  rw [if_pos hd]
  dsimp only
  rw [if_pos ⟨Or.inl (by rw [h1]; decide), hm⟩]

theorem update_offsetx_of_reject
    (st : MazeState) (fps : ℝ) (bits : ℕ → Bool) (rc sc : List ℕ)
    (time : ℝ) (params : BulletParams)
    (hbx : |st.offsetx| < fps / MOVE_SPEED)
    (hgx : gateX st.map st.right (st.offsetx * (fps / st.fps))
      (st.distance / (fps / MOVE_SPEED)) (st.distance * 1.5 - st.hero.R) =
      (st.offsetx, 0)) :
    (update st fps bits rc sc time params).1.offsetx = st.offsetx := by
  unfold update
  dsimp only
  rw [hgx, trackBullets_offsetx, slash_offsetx]
  dsimp only
  split
  · have hind : ¬ (|st.offsetx| ≥ fps / MOVE_SPEED) := not_le.mpr hbx
    rw [if_neg hind, mul_zero, rotate_offsetx_of_zero]
  · rfl

theorem update_offsety_of_reject
    (st : MazeState) (fps : ℝ) (bits : ℕ → Bool) (rc sc : List ℕ)
    (time : ℝ) (params : BulletParams)
    (hby : |st.offsety| < fps / MOVE_SPEED)
    (hgy : gateY st.map st.down (st.offsety * (fps / st.fps))
      (st.distance / (fps / MOVE_SPEED)) (st.distance * 1.5 - st.hero.R) =
      (st.offsety, 0)) :
    (update st fps bits rc sc time params).1.offsety = st.offsety := by
  unfold update
  dsimp only
  rw [hgy, trackBullets_offsety, slash_offsety]
  dsimp only
  split
  · have hind : ¬ (|st.offsety| ≥ fps / MOVE_SPEED) := not_le.mpr hby
    rw [if_neg hind, mul_zero, rotate_offsety_of_zero]
  · rfl

/-- C2: on a frame at the running frame rate with a nonzero requested
direction on an axis, if the three gating cells straddling the relevant
centreline at twice the tentative offset's sign are all WALL and the
tentative offset's pixel-equivalent magnitude exceeds the clearance
threshold `1.5·distance − heroR`, then the offset on that axis after the
whole `Maze.update` equals its value before, and the gate leg contributes
a zero directional delta for the frame.  (The offset bound `|offset| <
speed` is the state invariant maintained by the rotation events.) -/
theorem update_wall_gate_rejects
    (st : MazeState) (fps : ℝ) (bits : ℕ → Bool) (rc sc : List ℕ)
    (time : ℝ) (params : BulletParams)
    (hfps : fps = st.fps) (hf : st.fps ≠ 0)
    (hbx : |st.offsetx| < fps / MOVE_SPEED)
    (hby : |st.offsety| < fps / MOVE_SPEED) :
    (st.right ≠ 0 →
      getCell st.map (MIDDLE - signR (st.offsetx + (st.right : ℝ)) * 2) (MIDDLE - 1) = WALL →
      getCell st.map (MIDDLE - signR (st.offsetx + (st.right : ℝ)) * 2) MIDDLE = WALL →
      getCell st.map (MIDDLE - signR (st.offsetx + (st.right : ℝ)) * 2) (MIDDLE + 1) = WALL →
      |(st.offsetx + (st.right : ℝ)) * (st.distance / (fps / MOVE_SPEED))| >
        st.distance * 1.5 - st.hero.R →
      (update st fps bits rc sc time params).1.offsetx = st.offsetx ∧
      (gateX st.map st.right (st.offsetx * (fps / st.fps))
        (st.distance / (fps / MOVE_SPEED)) (st.distance * 1.5 - st.hero.R)).2 = 0) ∧
    (st.down ≠ 0 →
      getCell st.map (MIDDLE - 1) (MIDDLE - signR (st.offsety + (st.down : ℝ)) * 2) = WALL →
      getCell st.map MIDDLE (MIDDLE - signR (st.offsety + (st.down : ℝ)) * 2) = WALL →
      getCell st.map (MIDDLE + 1) (MIDDLE - signR (st.offsety + (st.down : ℝ)) * 2) = WALL →
      |(st.offsety + (st.down : ℝ)) * (st.distance / (fps / MOVE_SPEED))| >
        st.distance * 1.5 - st.hero.R →
      (update st fps bits rc sc time params).1.offsety = st.offsety ∧
      (gateY st.map st.down (st.offsety * (fps / st.fps))
        (st.distance / (fps / MOVE_SPEED)) (st.distance * 1.5 - st.hero.R)).2 = 0) := by
  have hox0 : st.offsetx * (fps / st.fps) = st.offsetx := by
    rw [hfps, div_self hf, mul_one]
  have hoy0 : st.offsety * (fps / st.fps) = st.offsety := by
    rw [hfps, div_self hf, mul_one]
  constructor
  · intro hr h1 _ _ hm
    have hgx : gateX st.map st.right (st.offsetx * (fps / st.fps))
        (st.distance / (fps / MOVE_SPEED)) (st.distance * 1.5 - st.hero.R) =
        (st.offsetx, 0) := by
      rw [hox0]; exact gateX_reject _ _ _ _ _ hr h1 hm
    exact ⟨update_offsetx_of_reject st fps bits rc sc time params hbx hgx,
           by rw [hgx]⟩
  · intro hd h1 _ _ hm
    have hgy : gateY st.map st.down (st.offsety * (fps / st.fps))
        (st.distance / (fps / MOVE_SPEED)) (st.distance * 1.5 - st.hero.R) =
        (st.offsety, 0) := by
      rw [hoy0]; exact gateY_reject _ _ _ _ _ hd h1 hm
    exact ⟨update_offsety_of_reject st fps bits rc sc time params hby hgy,
           by rw [hgy]⟩

/-- C2, witness: the concrete gate state heading right into three WALL
cells with the clearance threshold exceeded. -/
theorem update_wall_gate_rejects_witness :
    (update gateState 30 (fun _ => false) [] [] 0 ⟨0, 1⟩).1.offsetx =
      gateState.offsetx ∧
    (gateX gateState.map gateState.right (gateState.offsetx * (30 / gateState.fps))
      (gateState.distance / (30 / MOVE_SPEED))
      (gateState.distance * 1.5 - gateState.hero.R)).2 = 0 := by
  have hs : signR (gateState.offsetx + (gateState.right : ℝ)) = 1 := by
    simp only [gateState, baseState, signR]
    norm_num
  refine (update_wall_gate_rejects gateState 30 (fun _ => false) [] [] 0 ⟨0, 1⟩
    ?_ ?_ ?_ ?_).1 ?_ ?_ ?_ ?_ ?_
  · simp [gateState, baseState]
  · simp [gateState, baseState]
  · simp only [gateState, baseState, MOVE_SPEED]
    norm_num
  · simp only [gateState, baseState, MOVE_SPEED]
    norm_num
  · simp [gateState, baseState]
  · rw [hs]
    show getCell gateState.map (MIDDLE - 1 * 2) (MIDDLE - 1) = WALL
    simp only [gateState, baseState]
    decide
  · rw [hs]
    show getCell gateState.map (MIDDLE - 1 * 2) MIDDLE = WALL
    simp only [gateState, baseState]
    decide
  · rw [hs]
    show getCell gateState.map (MIDDLE - 1 * 2) (MIDDLE + 1) = WALL
    simp only [gateState, baseState]
    decide
  · simp only [gateState, baseState, plainHero, MOVE_SPEED]
    norm_num
    have h0 : (0 : ℝ) ≤ |(1 : ℝ) / 6| := abs_nonneg _
    linarith

/-- C3, witness: a rotation event with `x = 1` on the base state. -/
theorem rotate_event_resets_offset_witness :
    (rotate baseState 1 0 (fun _ => false) []).offsetx = 0 ∧
    (rotateCore baseState 1 0).rotatex = baseState.rotatex + 1 :=
  (rotate_event_resets_offset baseState 1 0 (fun _ => false) []).1 (by decide)

/-! ## C6 — the wake resolver's visibility condition -/

theorem wakeBlockedScan_iff (st : MazeState) (e : Enemy) (l : List (ℤ × ℤ)) :
    wakeBlockedScan st e l ↔
      ∃ p ∈ l, getCell st.map p.1 p.2 = WALL ∧
        wakeLineDist st e p.1 p.2 ≤ wakeMind st e := by
  induction l with
  | nil => simp [wakeBlockedScan]
  | cons p ps ih => simp [wakeBlockedScan, ih, and_assoc]

/-- C6: for a sleeping enemy whose own cell is not marked WALL (enemy cells
carry the ENEMY marker), `Maze.wake` sets `awake` to true exactly when no
WALL cell of the scanned bounding rectangle other than the enemy's own cell
has point-line distance at most `mind` to the hero-enemy line; moreover,
when the cell distance is nonnegative, a WALL cell of the rectangle lying
exactly on the line (perpendicular distance 0) leaves the enemy asleep. -/
theorem wake_awake_iff (st : MazeState) (e : Enemy)
    (hae : e.awake = false)
    (hcell : getCell st.map e.x e.y ≠ WALL) :
    ((wake st e).awake = true ↔
      ¬ ∃ p ∈ wakeRect e, p ≠ (e.x, e.y) ∧ getCell st.map p.1 p.2 = WALL ∧
        wakeLineDist st e p.1 p.2 ≤ wakeMind st e) ∧
    (0 ≤ st.distance →
      ∀ p ∈ wakeRect e, getCell st.map p.1 p.2 = WALL →
        wakeLineDist st e p.1 p.2 = 0 → (wake st e).awake = false) := by
  have hmind : 0 ≤ st.distance → 0 ≤ wakeMind st e := by
    intro hd
    unfold wakeMind cosin
    have hθ : ∀ t : ℝ, t = (if wakeDx st e ≠ 0
        then |Real.arctan (wakeDy st e / wakeDx st e)| else 0) →
        0 ≤ t ∧ t ≤ Real.pi / 2 := by
      intro t ht
      subst ht
      split
      · constructor
        · exact abs_nonneg _
        · rw [abs_le]
          constructor
          · linarith [Real.neg_pi_div_two_lt_arctan (wakeDy st e / wakeDx st e)]
          · linarith [Real.arctan_lt_pi_div_two (wakeDy st e / wakeDx st e)]
      · exact ⟨le_refl 0, by positivity⟩
    obtain ⟨h0, h2⟩ := hθ _ rfl
    have hcos : 0 ≤ Real.cos (if wakeDx st e ≠ 0
        then |Real.arctan (wakeDy st e / wakeDx st e)| else 0) := by
      apply Real.cos_nonneg_of_mem_Icc
      constructor <;> [linarith [Real.pi_pos]; linarith]
    have hsin : 0 ≤ Real.sin (if wakeDx st e ≠ 0
        then |Real.arctan (wakeDy st e / wakeDx st e)| else 0) := by
      apply Real.sin_nonneg_of_nonneg_of_le_pi h0
      linarith [Real.pi_pos]
    exact mul_nonneg (add_nonneg hcos hsin) hd
  constructor
  · by_cases hb : wakeBlockedScan st e (wakeRect e)
    · have hlhs : (wake st e).awake = false := by
        unfold wake; rw [if_pos hb]; exact hae
      rw [hlhs]
      simp only [Bool.false_eq_true, false_iff, not_not]
      obtain ⟨p, hp, hw, hle⟩ := (wakeBlockedScan_iff st e _).mp hb
      refine ⟨p, hp, ?_, hw, hle⟩
      rintro rfl
      exact hcell hw
    · have hlhs : (wake st e).awake = true := by
        unfold wake; rw [if_neg hb]
      rw [hlhs]
      simp only [true_iff]
      rintro ⟨p, hp, _, hw, hle⟩
      exact hb ((wakeBlockedScan_iff st e _).mpr ⟨p, hp, hw, hle⟩)
  · intro hd p hp hw h0
    have hb : wakeBlockedScan st e (wakeRect e) :=
      (wakeBlockedScan_iff st e _).mpr ⟨p, hp, hw, by rw [h0]; exact hmind hd⟩
    unfold wake
    rw [if_pos hb]
    exact hae

/-- C6, witness: a sleeping enemy one cell below the hero on an empty grid. -/
theorem wake_awake_iff_witness :
    (((wake baseState (mkEnemy MIDDLE (MIDDLE + 1))).awake = true ↔
      ¬ ∃ p ∈ wakeRect (mkEnemy MIDDLE (MIDDLE + 1)),
        p ≠ ((mkEnemy MIDDLE (MIDDLE + 1)).x, (mkEnemy MIDDLE (MIDDLE + 1)).y) ∧
        getCell baseState.map p.1 p.2 = WALL ∧
        wakeLineDist baseState (mkEnemy MIDDLE (MIDDLE + 1)) p.1 p.2 ≤
          wakeMind baseState (mkEnemy MIDDLE (MIDDLE + 1))) ∧
     (0 ≤ baseState.distance →
      ∀ p ∈ wakeRect (mkEnemy MIDDLE (MIDDLE + 1)),
        getCell baseState.map p.1 p.2 = WALL →
        wakeLineDist baseState (mkEnemy MIDDLE (MIDDLE + 1)) p.1 p.2 = 0 →
        (wake baseState (mkEnemy MIDDLE (MIDDLE + 1))).awake = false)) :=
  wake_awake_iff baseState (mkEnemy MIDDLE (MIDDLE + 1)) rfl
    (by simp [baseState, getCell, pyNat, WALL, EMPTY])

/-! ## C7 — no division by zero in the wake resolver -/

/-- C7: in any well-formed maze state (positive cell distance and speed,
`step = distance / speed`, offsets strictly below one full step, HERO
marker at the centre cell), whenever `Maze.wake` evaluates the point-line
distance formula — that is, for every WALL cell of the scanned rectangle —
the denominator `sqrt(dy² + dx²)` is nonzero, so no division by zero occurs
in the visibility computation. -/
theorem wake_denominator_nonzero (st : MazeState) (e : Enemy)
    (hd : 0 < st.distance) (hs : 0 < st.speed)
    (hstep : st.step = st.distance / st.speed)
    (hox : |st.offsetx| < st.speed) (hoy : |st.offsety| < st.speed)
    (hcenter : getCell st.map MIDDLE MIDDLE = HERO) :
    ∀ p ∈ wakeRect e, getCell st.map p.1 p.2 = WALL →
      Real.sqrt ((wakeDy st e) ^ 2 + (wakeDx st e) ^ 2) ≠ 0 := by
  intro p hp hw
  have hstep' : 0 < st.step := by rw [hstep]; positivity
  have hb : ∀ o : ℝ, |o| < st.speed → |o * st.step| < st.distance := by
    intro o ho
    rw [abs_mul, abs_of_pos hstep']
    calc |o| * st.step < st.speed * st.step := by
          exact mul_lt_mul_of_pos_right ho hstep'
      _ = st.distance := by rw [hstep]; field_simp
  have hax : ∀ z : ℤ, ∀ o : ℝ, |o| < st.speed →
      ((z - MIDDLE : ℤ) : ℝ) * st.distance + o * st.step = 0 → z = MIDDLE := by
    intro z o ho h0
    by_contra hne
    have h1 : (1 : ℝ) ≤ |((z - MIDDLE : ℤ) : ℝ)| := by
      have hz : (z - MIDDLE : ℤ) ≠ 0 := sub_ne_zero.mpr hne
      have h := Int.one_le_abs hz
      exact_mod_cast h
    have h2 : ((z - MIDDLE : ℤ) : ℝ) * st.distance = -(o * st.step) := by linarith
    have h3 : |((z - MIDDLE : ℤ) : ℝ)| * st.distance = |o * st.step| := by
      rw [← abs_of_pos hd, ← abs_mul, h2, abs_neg]
    have h4 := hb o ho
    nlinarith
  have hnz : ¬ (wakeDx st e = 0 ∧ wakeDy st e = 0) := by
    rintro ⟨hx0, hy0⟩
    have hex : e.x = MIDDLE := hax e.x st.offsetx hox hx0
    have hey : e.y = MIDDLE := hax e.y st.offsety hoy hy0
    have hrect : wakeRect e = [(MIDDLE, MIDDLE)] := by
      unfold wakeRect
      rw [hex, hey]
      decide
    rw [hrect] at hp
    simp only [List.mem_singleton] at hp
    rw [hp] at hw
    simp only at hw
    rw [hcenter] at hw
    exact absurd hw (by decide)
  have hpos : 0 < (wakeDy st e) ^ 2 + (wakeDx st e) ^ 2 := by
    rcases not_and_or.mp hnz with h | h
    · nlinarith [pow_two_pos_of_ne_zero h, sq_nonneg (wakeDy st e)]
    · nlinarith [pow_two_pos_of_ne_zero h, sq_nonneg (wakeDx st e)]
  exact ne_of_gt (Real.sqrt_pos.mpr hpos)

/-- C7, witness: an enemy one cell right of the hero on the all-wall grid
with the HERO marker at the centre; the cell `(MIDDLE+1, MIDDLE)` is a WALL
cell of the scanned rectangle. -/
theorem wake_denominator_nonzero_witness :
    Real.sqrt ((wakeDy wakeSeeState (mkEnemy (MIDDLE + 1) MIDDLE)) ^ 2 +
      (wakeDx wakeSeeState (mkEnemy (MIDDLE + 1) MIDDLE)) ^ 2) ≠ 0 := by
  refine wake_denominator_nonzero wakeSeeState (mkEnemy (MIDDLE + 1) MIDDLE)
    ?_ ?_ ?_ ?_ ?_ ?_ (MIDDLE + 1, MIDDLE) ?_ ?_
  · norm_num [wakeSeeState, baseState]
  · norm_num [wakeSeeState, baseState]
  · norm_num [wakeSeeState, baseState]
  · norm_num [wakeSeeState, baseState]
  · norm_num [wakeSeeState, baseState]
  · show getCell heroWallGrid MIDDLE MIDDLE = HERO
    decide
  · decide
  · show getCell heroWallGrid (MIDDLE + 1) MIDDLE = WALL
    decide

/-! ## C10 — the hero-death condition ends the run through `quit()` -/

theorem slash_no_enemies (st : MazeState) (c : List ℕ) (he : st.enemies = [])
    (hsl : st.hero.slashing = false) : slash st c = st := by
  obtain ⟨w, h, fps, speed, distance, step, x, y, mx, my, ox, oy, score, slashd,
    rgx, rgy, m, right, down, rotx, roty, bullets, enemies, hero⟩ := st
  obtain ⟨hw, hcl, hR, hslash, hspin, hang⟩ := hero
  dsimp only at he hsl
  subst he; subst hsl
  rfl

theorem trackBullets_no_bullets (st : MazeState) (time : ℝ) (params : BulletParams)
    (hb : st.bullets = []) : trackBullets st time params = st := by
  obtain ⟨w, h, fps, speed, distance, step, x, y, mx, my, ox, oy, score, slashd,
    rgx, rgy, m, right, down, rotx, roty, bullets, enemies, hero⟩ := st
  dsimp only at hb
  subst hb
  rfl

/-- On a quiet frame (no requested direction, no enemies, no bullets, hero
not slashing), `Maze.update` ends with `Maze.lose` exactly when the death
condition holds; the returned flag records the `quit()` call. -/
theorem update_quit_flag (st : MazeState) (fps : ℝ) (bits : ℕ → Bool)
    (rc sc : List ℕ) (time : ℝ) (params : BulletParams)
    (he : st.enemies = []) (hb : st.bullets = [])
    (hr : st.right = 0) (hd : st.down = 0)
    (hsl : st.hero.slashing = false)
    (hw : st.hero.wound + 1 > (st.hero.colorLen : ℝ)) :
    (update st fps bits rc sc time params).2 = true := by
  have hgx : gateX st.map st.right (st.offsetx * (fps / st.fps))
      (st.distance / (fps / MOVE_SPEED)) (st.distance * 1.5 - st.hero.R) =
      (st.offsetx * (fps / st.fps), 0) := by
    unfold gateX
    rw [hr]
    simp
  have hgy : gateY st.map st.down (st.offsety * (fps / st.fps))
      (st.distance / (fps / MOVE_SPEED)) (st.distance * 1.5 - st.hero.R) =
      (st.offsety * (fps / st.fps), 0) := by
    unfold gateY
    rw [hd]
    simp
  unfold update
  dsimp only
  rw [hgx, hgy]
  dsimp only
  rw [if_neg (show ¬((0 : ℤ) ≠ 0 ∨ (0 : ℤ) ≠ 0) by simp)]
  rw [slash_no_enemies _ sc (by dsimp only; rw [he]; rfl)
    (by dsimp only [heroUpdate]; exact hsl)]
  rw [trackBullets_no_bullets _ time params (by dsimp only; exact hb)]
  dsimp only [heroUpdate]
  rw [if_pos hw]

/-- C10: at a concrete state whose hero wound has exceeded the maximum
(wound 6, six colour stages, `6 + 1 > 6`), the frame update terminates the
run by calling `Maze.lose`, which invokes the Python built-in `quit()` —
an abrupt interpreter exit, not a propagated "simulation ended" status. -/
theorem update_death_calls_quit :
    (update deadState 30 (fun _ => false) [] [] 0 ⟨0, 1⟩).2 = true := by
  refine update_quit_flag deadState 30 (fun _ => false) [] [] 0 ⟨0, 1⟩
    rfl rfl rfl rfl rfl ?_
  norm_num [deadState, baseState, plainHero]

/-! ## C8 — hero bullets: first-match hit, wound, death and score -/

theorem getCell_nil (i j : ℤ) : getCell ([] : Grid) i j = EMPTY := by
  unfold getCell
  simp

theorem bulletHitScan_split (distance mx my bx bly w : ℝ)
    (pre post : List Enemy) (e : Enemy)
    (hpre : ∀ e' ∈ pre,
      ¬ (lengthXY bx bly (enemyPos e' distance mx my).1
          (enemyPos e' distance mx my).2 < distance))
    (hhit : lengthXY bx bly (enemyPos e distance mx my).1
        (enemyPos e distance mx my).2 < distance) :
    bulletHitScan distance mx my bx bly w (pre ++ e :: post) =
      (if e.wound + w ≥ (e.colorLen : ℝ) then (pre ++ post, e.wound + w, true)
       else (pre ++ { e with wound := e.wound + w } :: post, 0, true)) := by
  induction pre with
  | nil =>
      simp only [List.nil_append]
      unfold bulletHitScan
      rw [if_pos hhit]
  | cons a as ih =>
      have hna := hpre a (List.mem_cons_self a as)
      have ih' := ih (fun e' he' => hpre e' (List.mem_cons_of_mem a he'))
      simp only [List.cons_append]
      unfold bulletHitScan
      rw [if_neg hna]
      dsimp only
      rw [ih']
      by_cases hc : e.wound + w ≥ (e.colorLen : ℝ)
      · rw [if_pos hc, if_pos hc]
      · rw [if_neg hc, if_neg hc]

/-- C8: a hero-coloured, not-yet-expired bullet whose updated position is
not in a WALL cell and which is within one `distance` unit of the enemy
`e` — the first such enemy in iteration order — is destroyed and damages
only `e` by the remaining-lifetime fraction `w`; if `e.wound + w` reaches
the colour-stage threshold, `e` is removed and the score increases by
exactly `e.wound + w`, otherwise `e` survives with the larger wound and the
score is unchanged.  The enemies before and after `e` and the hero are
untouched: no multi-hit per frame. -/
theorem trackBullets_first_hit
    (st : MazeState) (time : ℝ) (params : BulletParams)
    (b : Bullet) (pre post : List Enemy) (e : Enemy)
    (hbl : st.bullets = [b])
    (hcol : b.heroColor = true)
    (hwnn : ¬ ((b.fallTime - time) / params.lifetime < 0))
    (hnw : getCell st.map
      (MIDDLE + round2 (((bulletUpdate params st.fps st.distance b).x - st.x) / st.distance))
      (MIDDLE + round2 (((bulletUpdate params st.fps st.distance b).y - st.y) / st.distance))
      ≠ WALL)
    (hsplit : st.enemies = pre ++ e :: post)
    (hpre : ∀ e' ∈ pre,
      ¬ (lengthXY (bulletUpdate params st.fps st.distance b).x
          (bulletUpdate params st.fps st.distance b).y
          (enemyPos e' st.distance st.middlex st.middley).1
          (enemyPos e' st.distance st.middlex st.middley).2 < st.distance))
    (hhit : lengthXY (bulletUpdate params st.fps st.distance b).x
        (bulletUpdate params st.fps st.distance b).y
        (enemyPos e st.distance st.middlex st.middley).1
        (enemyPos e st.distance st.middlex st.middley).2 < st.distance) :
    (trackBullets st time params).bullets = [] ∧
    (trackBullets st time params).hero.wound = st.hero.wound ∧
    (e.wound + (b.fallTime - time) / params.lifetime ≥ (e.colorLen : ℝ) →
      (trackBullets st time params).enemies = pre ++ post ∧
      (trackBullets st time params).score =
        st.score + (e.wound + (b.fallTime - time) / params.lifetime)) ∧
    (¬ (e.wound + (b.fallTime - time) / params.lifetime ≥ (e.colorLen : ℝ)) →
      (trackBullets st time params).enemies =
        pre ++ { e with wound := e.wound + (b.fallTime - time) / params.lifetime } :: post ∧
      (trackBullets st time params).score = st.score) := by
  have hscan := bulletHitScan_split st.distance st.middlex st.middley
    (bulletUpdate params st.fps st.distance b).x
    (bulletUpdate params st.fps st.distance b).y
    ((b.fallTime - time) / params.lifetime) pre post e hpre hhit
  unfold trackBullets
  rw [hbl]
  unfold trackLoop
  rw [if_neg hwnn, if_pos hcol, if_neg hnw, hsplit, hscan]
  by_cases hc : e.wound + (b.fallTime - time) / params.lifetime ≥ (e.colorLen : ℝ)
  · rw [if_pos hc]
    dsimp only
    rw [if_pos rfl]
    unfold trackLoop
    exact ⟨rfl, rfl, fun _ => ⟨rfl, rfl⟩, fun hcn => absurd hc hcn⟩
  · rw [if_neg hc]
    dsimp only
    rw [if_pos rfl]
    unfold trackLoop
    refine ⟨rfl, rfl, fun hcy => absurd hcy hc, fun _ => ⟨rfl, ?_⟩⟩
    dsimp only
    rw [add_zero]

/-- C8, witness: in `bulletState`, the hero bullet misses the far enemy,
hits the centre enemy whose wound `5/2` is just below its threshold `3`,
the bullet is destroyed, the far enemy survives untouched, and the score
increases by exactly `5/2 + 1`. -/
theorem trackBullets_first_hit_witness :
    (trackBullets bulletState 0 ⟨0, 1⟩).bullets = [] ∧
    (trackBullets bulletState 0 ⟨0, 1⟩).hero.wound = bulletState.hero.wound ∧
    (trackBullets bulletState 0 ⟨0, 1⟩).enemies = [farEnemy] ∧
    (trackBullets bulletState 0 ⟨0, 1⟩).score =
      bulletState.score + (nearEnemy.wound + (heroBullet.fallTime - 0) / (1 : ℝ)) := by
  have hb' : (bulletUpdate ⟨0, 1⟩ bulletState.fps bulletState.distance heroBullet).x = 0 ∧
      (bulletUpdate ⟨0, 1⟩ bulletState.fps bulletState.distance heroBullet).y = 0 := by
    constructor <;> simp [bulletUpdate, heroBullet]
  have hnear : enemyPos nearEnemy bulletState.distance bulletState.middlex
      bulletState.middley = (0, 0) := by
    simp only [enemyPos, nearEnemy, mkEnemy, pos, bulletState, baseState]
    norm_num
  have hfar : enemyPos farEnemy bulletState.distance bulletState.middlex
      bulletState.middley = (5, 0) := by
    simp only [enemyPos, farEnemy, mkEnemy, pos, bulletState, baseState]
    norm_num
  obtain ⟨h1, h2, h3, h4⟩ := trackBullets_first_hit bulletState 0 ⟨0, 1⟩ heroBullet
    [farEnemy] [] nearEnemy rfl rfl
    (by simp [heroBullet])
    (by rw [show bulletState.map = [] from rfl, getCell_nil]; decide)
    rfl
    (by
      intro e' he'
      simp only [List.mem_singleton] at he'
      subst he'
      rw [hb'.1, hb'.2, hfar]
      unfold lengthXY
      dsimp only
      rw [show ((5 : ℝ) - 0) ^ 2 + ((0 : ℝ) - 0) ^ 2 = 5 ^ 2 by norm_num,
        Real.sqrt_sq (by norm_num : (0 : ℝ) ≤ 5)]
      norm_num [bulletState, baseState])
    (by
      rw [hb'.1, hb'.2, hnear]
      unfold lengthXY
      dsimp only
      rw [show ((0 : ℝ) - 0) ^ 2 + ((0 : ℝ) - 0) ^ 2 = 0 by norm_num, Real.sqrt_zero]
      norm_num [bulletState, baseState])
  have hdeath : nearEnemy.wound + (heroBullet.fallTime - 0) / ((⟨0, 1⟩ : BulletParams)).lifetime
      ≥ (nearEnemy.colorLen : ℝ) := by
    simp only [nearEnemy, mkEnemy, heroBullet, ENEMY_COLOR_LEN]
    norm_num
  obtain ⟨h5, h6⟩ := h3 hdeath
  refine ⟨h1, h2, by simpa using h5, ?_⟩
  rw [h6]

/-! ## C9 — the population manager spawns to the target count -/

theorem list_getD_set {α : Type} (l : List α) (n k : ℕ) (x d : α) :
    (l.set n x).getD k d = if n = k ∧ n < l.length then x else l.getD k d := by
  induction l generalizing n k with
  | nil => simp
  | cons a as ihl =>
      cases n with
      | zero =>
          cases k with
          | zero => simp
          | succ k2 => simp
      | succ n2 =>
          cases k with
          | zero => simp
          | succ k2 =>
              simp only [List.set, List.getD_cons_succ, List.length_cons]
              rw [ihl n2 k2]
              by_cases h : n2 = k2 ∧ n2 < as.length
              · rw [if_pos h, if_pos (by omega)]
              · rw [if_neg h, if_neg (by omega)]

theorem getCell_setCell_cases (m : Grid) (a b : ℤ) (v : ℕ) (i j : ℤ) :
    getCell (setCell m a b v) i j = v ∨
    getCell (setCell m a b v) i j = getCell m i j := by
  unfold getCell setCell
  dsimp only
  rw [List.length_set, list_getD_set]
  split
  case isTrue h =>
    rw [List.length_set, list_getD_set]
    split
    case isTrue h2 => left; rfl
    case isFalse h2 =>
      right
      rw [h.1]
  case isFalse h =>
    right
    rfl

theorem not_surrounded_setCell (m : Grid) (a b x y : ℤ)
    (h : ¬ wallSurrounded m x y) :
    ¬ wallSurrounded (setCell m a b ENEMY) x y := by
  intro hnew
  apply h
  intro p hp
  have hv := hnew p hp
  rcases getCell_setCell_cases m a b ENEMY (x + p.1) (y + p.2) with hc | hc
  · rw [hc] at hv
    exact absurd hv (by decide)
  · rw [hc] at hv
    exact hv

theorem addEnemyLoop_fills (n : ℕ) (choices : List ℕ) :
    ∀ (walls : List (ℤ × ℤ)) (enemies : List Enemy) (m : Grid),
      walls.Nodup →
      (∀ w ∈ walls, ¬ wallSurrounded m w.1 w.2) →
      n ≤ enemies.length + walls.length →
      n ≤ enemies.length + choices.length →
      enemies.length ≤ n →
      (addEnemyLoop (n : ℝ) choices walls enemies m).1.length = n ∧
      ∃ newEs : List Enemy,
        (addEnemyLoop (n : ℝ) choices walls enemies m).1 = enemies ++ newEs ∧
        (newEs.map (fun e => (e.x, e.y))).Nodup ∧
        ∀ e ∈ newEs, (e.x, e.y) ∈ walls := by
  induction choices with
  | nil =>
      intro walls enemies m _ _ _ hch hcur
      unfold addEnemyLoop
      have hn : enemies.length = n := le_antisymm hcur (by simpa using hch)
      exact ⟨hn, [], by simp, by simp, by simp⟩
  | cons c rest ih =>
      intro walls enemies m hnd hni hlen hch hcur
      unfold addEnemyLoop
      by_cases hgo : walls ≠ [] ∧ ((enemies.length : ℝ) < (n : ℝ))
      · rw [if_pos hgo]
        dsimp only
        have hwl : 0 < walls.length := List.length_pos.mpr hgo.1
        have hidx : c % walls.length < walls.length := Nat.mod_lt c hwl
        have hwm : walls.getD (c % walls.length) (0, 0) ∈ walls := by
          rw [List.getD_eq_getElem walls (0, 0) hidx]
          exact List.getElem_mem hidx
        have hns : ¬ wallSurrounded m (walls.getD (c % walls.length) (0, 0)).1
            (walls.getD (c % walls.length) (0, 0)).2 := hni _ hwm
        rw [if_neg hns]
        have hlt : enemies.length < n := by exact_mod_cast hgo.2
        have herased : (walls.erase (walls.getD (c % walls.length) (0, 0))).length =
            walls.length - 1 := List.length_erase_of_mem hwm
        have hch' : n ≤ enemies.length + (c :: rest).length := hch
        simp only [List.length_cons] at hch'
        obtain ⟨hL, newEs, hEq, hNd, hMem⟩ := ih
          (walls.erase (walls.getD (c % walls.length) (0, 0)))
          (enemies ++ [mkEnemy (walls.getD (c % walls.length) (0, 0)).1
            (walls.getD (c % walls.length) (0, 0)).2])
          (setCell m (walls.getD (c % walls.length) (0, 0)).1
            (walls.getD (c % walls.length) (0, 0)).2 ENEMY)
          (hnd.erase _)
          (fun w' hw' => not_surrounded_setCell m _ _ _ _
            (hni w' (List.erase_subset _ _ hw')))
          (by simp only [List.length_append, List.length_singleton]; omega)
          (by simp only [List.length_append, List.length_singleton]; omega)
          (by simp only [List.length_append, List.length_singleton]; omega)
        refine ⟨hL, mkEnemy (walls.getD (c % walls.length) (0, 0)).1
          (walls.getD (c % walls.length) (0, 0)).2 :: newEs, ?_, ?_, ?_⟩
        · rw [hEq]
          simp
        · simp only [List.map_cons]
          refine List.nodup_cons.mpr ⟨?_, hNd⟩
          intro hmem
          obtain ⟨e, he, hpe⟩ := List.mem_map.mp hmem
          have hin := hMem e he
          rw [hpe] at hin
          have : walls.getD (c % walls.length) (0, 0) ∈
              walls.erase (walls.getD (c % walls.length) (0, 0)) := by
            simpa [mkEnemy] using hin
          exact (List.Nodup.not_mem_erase hnd) this
        · intro e he
          rcases List.mem_cons.mp he with rfl | he2
          · simpa [mkEnemy] using hwm
          · exact List.erase_subset _ _ (hMem e he2)
      · rw [if_neg hgo]
        have hn : enemies.length = n := by
          rcases not_and_or.mp hgo with hcase | hcase
          · have hwnil : walls = [] := not_not.mp hcase
            rw [hwnil] at hlen
            simp only [List.length_nil, add_zero] at hlen
            omega
          · have hge : (n : ℝ) ≤ (enemies.length : ℝ) := not_lt.mp hcase
            have : n ≤ enemies.length := by exact_mod_cast hge
            omega
        exact ⟨hn, [], by simp, by simp, by simp⟩

set_option maxHeartbeats 1000000 in
/-- C9: if `log_GOLDEN_MEAN(score) = 3.0`, no enemy is live, the candidate
pool holds at least 3 wall cells, every pool cell is eligible (not
surrounded by walls on its four orthogonal neighbours) and the random
source supplies at least 3 draws, then `Maze.add_enemy` produces exactly 3
enemies, placed on pairwise distinct cells of the previously collected
pool, each of which was an eligible wall cell — never a fully
wall-surrounded one. -/
theorem addEnemy_population (st : MazeState) (choices : List ℕ)
    (hlog : Real.log st.score / Real.log GOLDEN_MEAN = 3)
    (henem : st.enemies = [])
    (hwalls : 3 ≤ (wallsOf st).length)
    (helig : ∀ w ∈ wallsOf st, ¬ wallSurrounded st.map w.1 w.2)
    (hnodup : (wallsOf st).Nodup)
    (hchoices : 3 ≤ choices.length) :
    (addEnemy st choices).enemies.length = 3 ∧
    ((addEnemy st choices).enemies.map (fun e => (e.x, e.y))).Nodup ∧
    ∀ e ∈ (addEnemy st choices).enemies,
      (e.x, e.y) ∈ wallsOf st ∧ ¬ wallSurrounded st.map e.x e.y := by
  unfold addEnemy
  dsimp only
  rw [hlog, henem]
  have h3 : ((3 : ℕ) : ℝ) = (3 : ℝ) := by norm_num
  rw [← h3]
  obtain ⟨hL, newEs, hEq, hNd, hMem⟩ := addEnemyLoop_fills 3 choices (wallsOf st)
    [] st.map hnodup helig (by simpa using hwalls) (by simpa using hchoices)
    (by simp)
  rw [hEq] at hL ⊢
  simp only [List.nil_append] at hL ⊢
  exact ⟨hL, hNd, fun e he => ⟨hMem e he, helig _ (hMem e he)⟩⟩

theorem one_lt_golden : (1 : ℝ) < GOLDEN_MEAN := by
  unfold GOLDEN_MEAN
  have h : (2 : ℝ) < Real.sqrt 5 := by
    have h45 : Real.sqrt 4 < Real.sqrt 5 := by
      apply Real.sqrt_lt_sqrt <;> norm_num
    rw [show (4 : ℝ) = 2 ^ 2 by norm_num,
      Real.sqrt_sq (by norm_num : (0 : ℝ) ≤ 2)] at h45
    exact h45
  linarith

/-- C9, witness: the concrete population state with three eligible wall
cells, score `GOLDEN_MEAN ^ 3` and three random draws. -/
theorem addEnemy_population_witness :
    (addEnemy popState [0, 0, 0]).enemies.length = 3 ∧
    ((addEnemy popState [0, 0, 0]).enemies.map (fun e => (e.x, e.y))).Nodup ∧
    ∀ e ∈ (addEnemy popState [0, 0, 0]).enemies,
      (e.x, e.y) ∈ wallsOf popState ∧ ¬ wallSurrounded popState.map e.x e.y := by
  refine addEnemy_population popState [0, 0, 0] ?_ rfl ?_ ?_ ?_ ?_
  · show Real.log (GOLDEN_MEAN ^ 3) / Real.log GOLDEN_MEAN = 3
    have hφ : Real.log GOLDEN_MEAN ≠ 0 := ne_of_gt (Real.log_pos one_lt_golden)
    rw [Real.log_pow, mul_div_assoc, div_self hφ, mul_one]
    norm_num
  · decide
  · decide
  · decide
  · decide

/-! ## C5 — groundwork: cell-level facts about `getCell`/`setCell` -/

theorem foldl_preserve {α β : Type} (P : α → Prop) (f : α → β → α)
    (hf : ∀ a b, P a → P (f a b)) :
    ∀ (l : List β) (a : α), P a → P (l.foldl f a)
  | [], _, ha => ha
  | b :: l, a, ha => foldl_preserve P f hf l (f a b) (hf a b ha)

theorem list_set_oob {α : Type} : ∀ (l : List α) (n : ℕ) (x : α),
    l.length ≤ n → l.set n x = l
  | [], _, _, _ => rfl
  | a :: as, 0, _, h => by simp at h
  | a :: as, n + 1, x, h => by
      show a :: as.set n x = a :: as
      rw [list_set_oob as n x (by simpa using h)]

theorem list_set_self {α : Type} (l : List α) : ∀ (n : ℕ) (h : n < l.length),
    l.set n (getElem l n h) = l := by
  induction l with
  | nil => intro n h; simp at h
  | cons a as ih =>
      intro n h
      cases n with
      | zero => rfl
      | succ k =>
          show a :: as.set k (getElem as k (by simpa using h)) = a :: as
          rw [ih k (by simpa using h)]

theorem getD_mem_or {α : Type} (l : List α) (k : ℕ) (d : α) :
    l.getD k d ∈ l ∨ l.getD k d = d := by
  by_cases h : k < l.length
  · left
    rw [List.getD_eq_getElem l d h]
    exact List.getElem_mem h
  · right
    exact List.getD_eq_default l d (Nat.le_of_not_lt h)

theorem noHeroGrid_getCell (m : Grid) (hm : noHeroGrid m) (i j : ℤ) :
    getCell m i j ≠ HERO := by
  unfold getCell
  dsimp only
  rcases getD_mem_or m (pyNat m.length i) [] with hcol | hcol
  · rcases getD_mem_or (m.getD (pyNat m.length i) [])
      (pyNat (m.getD (pyNat m.length i) []).length j) EMPTY with hv | hv
    · exact hm _ hcol _ hv
    · rw [hv]; decide
  · rw [hcol]
    simp only [List.getD_nil]
    decide

theorem pyNat_nonneg (n : ℕ) (i : ℤ) (h : 0 ≤ i) : pyNat n i = i.toNat := by
  unfold pyNat
  rw [if_neg (not_lt.mpr h)]

theorem pyNat_coe (n k : ℕ) : pyNat n (k : ℤ) = k := by
  unfold pyNat
  rw [if_neg (not_lt.mpr (Int.natCast_nonneg k))]
  omega

theorem dims_setCell (m : Grid) (a b : ℤ) (v : ℕ) (hd : dims m) :
    dims (setCell m a b v) := by
  unfold setCell
  dsimp only
  by_cases hlt : pyNat m.length a < m.length
  · constructor
    · rw [List.length_set]
      exact hd.1
    · intro col hcol
      rcases List.mem_or_eq_of_mem_set hcol with hc | hc
      · exact hd.2 col hc
      · subst hc
        rw [List.length_set]
        apply hd.2
        rw [List.getD_eq_getElem m [] hlt]
        exact List.getElem_mem hlt
  · rw [list_set_oob _ _ _ (Nat.le_of_not_lt hlt)]
    exact hd

theorem noHero_setCell (m : Grid) (a b : ℤ) (v : ℕ) (hv : v ≠ HERO)
    (hm : noHeroGrid m) : noHeroGrid (setCell m a b v) := by
  unfold setCell
  dsimp only
  intro col hcol w hw
  rcases List.mem_or_eq_of_mem_set hcol with hc | hc
  · exact hm col hc w hw
  · subst hc
    rcases List.mem_or_eq_of_mem_set hw with hc2 | hc2
    · rcases getD_mem_or m (pyNat m.length a) [] with h3 | h3
      · exact hm _ h3 w hc2
      · rw [h3] at hc2
        simp at hc2
    · subst hc2
      exact hv

theorem getCell_setCell_pos (m : Grid) (a b i j : ℤ) (v : ℕ) (hd : dims m)
    (ha : 0 ≤ a) (ha2 : a < (GRID : ℤ)) (hb : 0 ≤ b) (hb2 : b < (GRID : ℤ))
    (hi : 0 ≤ i) (hj : 0 ≤ j) :
    getCell (setCell m a b v) i j = if i = a ∧ j = b then v else getCell m i j := by
  have hpa : pyNat m.length a = a.toNat := pyNat_nonneg _ a ha
  have hpi : pyNat m.length i = i.toNat := pyNat_nonneg _ i hi
  have hpaL : a.toNat < m.length := by
    rw [hd.1]
    omega
  unfold getCell setCell
  dsimp only
  rw [List.length_set, list_getD_set]
  split
  case isTrue h =>
    have hia : i = a := by
      rw [hpa, hpi] at h
      omega
    rw [hia]
    have hcolmem : m.getD (pyNat m.length a) [] ∈ m := by
      rw [hpa, List.getD_eq_getElem m [] hpaL]
      exact List.getElem_mem hpaL
    have hclen : (m.getD (pyNat m.length a) []).length = GRID := hd.2 _ hcolmem
    have hpb : pyNat (m.getD (pyNat m.length a) []).length b = b.toNat :=
      pyNat_nonneg _ b hb
    have hpj : pyNat (m.getD (pyNat m.length a) []).length j = j.toNat :=
      pyNat_nonneg _ j hj
    have hpbL : b.toNat < (m.getD (pyNat m.length a) []).length := by
      rw [hclen]
      omega
    rw [List.length_set, list_getD_set]
    by_cases hjb : j = b
    · rw [if_pos ⟨by rw [hpb, hpj]; omega, by rw [hpb]; exact hpbL⟩,
        if_pos ⟨rfl, hjb⟩]
    · rw [if_neg (fun hc => hjb (by rw [hpb, hpj] at hc; omega : j = b)),
        if_neg (fun hc => hjb hc.2)]
  case isFalse h =>
    rw [if_neg (fun hc => h ⟨by rw [hc.1], by rw [hpa]; exact hpaL⟩)]

theorem setCell_oob_outer (m : Grid) (a b : ℤ) (v : ℕ)
    (h : m.length ≤ pyNat m.length a) : setCell m a b v = m := by
  unfold setCell
  dsimp only
  exact list_set_oob _ _ _ h

theorem setCell_oob_inner (m : Grid) (a b : ℤ) (v : ℕ)
    (h1 : pyNat m.length a < m.length)
    (h2 : (m.getD (pyNat m.length a) []).length ≤
      pyNat (m.getD (pyNat m.length a) []).length b) : setCell m a b v = m := by
  unfold setCell
  dsimp only
  rw [list_set_oob _ _ _ h2, List.getD_eq_getElem m [] h1, list_set_self m _ h1]

theorem getCell_pyNat (m : Grid) (hd : dims m) (a b : ℤ) :
    getCell m a b =
      getCell m ((pyNat GRID a : ℕ) : ℤ) ((pyNat GRID b : ℕ) : ℤ) := by
  unfold getCell
  dsimp only
  rw [hd.1, pyNat_coe]
  by_cases hin : pyNat GRID a < GRID
  · have hcolmem : m.getD (pyNat GRID a) [] ∈ m := by
      rw [List.getD_eq_getElem m [] (by rw [hd.1]; exact hin)]
      exact List.getElem_mem _
    have hclen : (m.getD (pyNat GRID a) []).length = GRID := hd.2 _ hcolmem
    rw [hclen, pyNat_coe]
  · have hnil : m.getD (pyNat GRID a) [] = [] :=
      List.getD_eq_default m [] (by rw [hd.1]; omega)
    rw [hnil]
    simp only [List.getD_nil]

theorem setCell_pyNat (m : Grid) (hd : dims m) (a b : ℤ) (v : ℕ) :
    setCell m a b v =
      setCell m ((pyNat GRID a : ℕ) : ℤ) ((pyNat GRID b : ℕ) : ℤ) v := by
  unfold setCell
  dsimp only
  rw [hd.1, pyNat_coe]
  by_cases hin : pyNat GRID a < GRID
  · have hcolmem : m.getD (pyNat GRID a) [] ∈ m := by
      rw [List.getD_eq_getElem m [] (by rw [hd.1]; exact hin)]
      exact List.getElem_mem _
    have hclen : (m.getD (pyNat GRID a) []).length = GRID := hd.2 _ hcolmem
    rw [hclen, pyNat_coe]
  · rw [list_set_oob _ _ _ (by rw [hd.1]; omega),
      list_set_oob _ _ _ (by rw [hd.1]; omega)]

/-- Writing a non-HERO value at a cell that does not hold the HERO marker
preserves the one-HERO-at-centre invariant. -/
theorem heroInv_setCell_ne (m : Grid) (a b : ℤ) (v : ℕ)
    (hinv : heroInv m) (hv : v ≠ HERO) (hW : getCell m a b ≠ HERO) :
    heroInv (setCell m a b v) := by
  obtain ⟨hd, hiff⟩ := hinv
  by_cases hoa : pyNat GRID a < GRID
  case neg =>
    rw [setCell_oob_outer m a b v (by rw [hd.1]; omega)]
    exact ⟨hd, hiff⟩
  case pos =>
    by_cases hob : pyNat GRID b < GRID
    case neg =>
      have hcolmem : m.getD (pyNat m.length a) [] ∈ m := by
        rw [List.getD_eq_getElem m [] (by rw [hd.1]; exact hoa)]
        exact List.getElem_mem _
      have hclen : (m.getD (pyNat m.length a) []).length = GRID := hd.2 _ hcolmem
      rw [setCell_oob_inner m a b v (by rw [hd.1]; exact hoa)
        (by rw [hclen]; omega)]
      exact ⟨hd, hiff⟩
    case pos =>
      have hset := setCell_pyNat m hd a b v
      have hget := getCell_pyNat m hd a b
      have hMC1 : (0 : ℤ) ≤ MIDDLE := by decide
      have hMC2 : MIDDLE < (GRID : ℤ) := by decide
      constructor
      · rw [hset]
        exact dims_setCell m _ _ v hd
      · intro i j hi hi2 hj hj2
        rw [hset, getCell_setCell_pos m _ _ i j v hd (Int.natCast_nonneg _)
          (by exact_mod_cast hoa) (Int.natCast_nonneg _) (by exact_mod_cast hob)
          hi hj]
        split
        case isTrue hc =>
          constructor
          · intro hv2
            exact absurd hv2 hv
          · rintro ⟨h57i, h57j⟩
            exfalso
            apply hW
            have ham : ((pyNat GRID a : ℕ) : ℤ) = MIDDLE := by rw [← hc.1, h57i]
            have hbm : ((pyNat GRID b : ℕ) : ℤ) = MIDDLE := by rw [← hc.2, h57j]
            rw [hget, ham, hbm]
            exact (hiff MIDDLE MIDDLE hMC1 hMC2 hMC1 hMC2).mpr ⟨rfl, rfl⟩
        case isFalse hc =>
          exact hiff i j hi hi2 hj hj2

theorem getCell_getElem (m : Grid) (k t : ℕ) (hk : k < m.length)
    (ht : t < (getElem m k hk).length) :
    getCell m (k : ℤ) (t : ℤ) = getElem (getElem m k hk) t ht := by
  unfold getCell
  dsimp only
  rw [pyNat_coe, List.getD_eq_getElem m [] hk, pyNat_coe,
    List.getD_eq_getElem _ EMPTY ht]

/-- Clearing the centre cell of a hero-invariant grid leaves a grid with
full dimensions and no HERO marker anywhere. -/
theorem clear_center (m : Grid) (hinv : heroInv m) :
    dims (setCell m MIDDLE MIDDLE EMPTY) ∧
    noHeroGrid (setCell m MIDDLE MIDDLE EMPTY) := by
  obtain ⟨hd, hiff⟩ := hinv
  refine ⟨dims_setCell m _ _ _ hd, ?_⟩
  intro col hcol w hw
  unfold setCell at hcol
  dsimp only at hcol
  obtain ⟨k, hk, hcolk⟩ := List.mem_iff_getElem.mp hcol
  rw [List.getElem_set] at hcolk
  have hkL : k < m.length := by
    rw [List.length_set] at hk
    exact hk
  have hi0 : pyNat m.length MIDDLE < m.length := by
    rw [hd.1]
    decide
  have hIdx0 : pyNat m.length MIDDLE = MIDDLE.toNat :=
    pyNat_nonneg _ _ (by decide)
  by_cases hk0 : pyNat m.length MIDDLE = k
  · rw [if_pos hk0] at hcolk
    subst hcolk
    obtain ⟨t, ht, hwt⟩ := List.mem_iff_getElem.mp hw
    rw [List.getElem_set] at hwt
    have hcol0 : m.getD (pyNat m.length MIDDLE) [] ∈ m := by
      rw [List.getD_eq_getElem m [] hi0]
      exact List.getElem_mem _
    have hclen : (m.getD (pyNat m.length MIDDLE) []).length = GRID := hd.2 _ hcol0
    have htL : t < (m.getD (pyNat m.length MIDDLE) []).length := by
      rw [List.length_set] at ht
      exact ht
    by_cases hj0 : pyNat (m.getD (pyNat m.length MIDDLE) []).length MIDDLE = t
    · rw [if_pos hj0] at hwt
      rw [← hwt]
      decide
    · rw [if_neg hj0] at hwt
      have hgd : m.getD (pyNat m.length MIDDLE) [] =
          getElem m (pyNat m.length MIDDLE) hi0 :=
        List.getD_eq_getElem m [] hi0
      have htL2 : t < (getElem m (pyNat m.length MIDDLE) hi0).length := by
        rw [← hgd]
        exact htL
      have hgc : getCell m ((pyNat m.length MIDDLE : ℕ) : ℤ) (t : ℤ) = w := by
        rw [getCell_getElem m (pyNat m.length MIDDLE) t hi0 htL2, ← hwt]
        congr 1
        exact hgd.symm
      intro hwh
      have hcast : ((pyNat m.length MIDDLE : ℕ) : ℤ) = MIDDLE := by
        rw [hIdx0]
        decide
      have hb1 : (0 : ℤ) ≤ (t : ℤ) := Int.natCast_nonneg t
      have hb2 : (t : ℤ) < (GRID : ℤ) := by
        have := htL
        rw [hclen] at this
        exact_mod_cast this
      have hpair := (hiff ((pyNat m.length MIDDLE : ℕ) : ℤ) (t : ℤ)
        (by rw [hcast]; decide) (by rw [hcast]; decide) hb1 hb2).mp
        (by rw [hgc]; exact hwh)
      have ht57 : (t : ℤ) = MIDDLE := hpair.2
      apply hj0
      rw [pyNat_nonneg _ _ (by decide : (0 : ℤ) ≤ MIDDLE)]
      omega
  · rw [if_neg hk0] at hcolk
    subst hcolk
    obtain ⟨t, ht, hwt⟩ := List.mem_iff_getElem.mp hw
    have hclen : (getElem m k hkL).length = GRID := hd.2 _ (List.getElem_mem _)
    have hgc : getCell m (k : ℤ) (t : ℤ) = w := by
      rw [getCell_getElem m k t hkL ht, hwt]
    intro hwh
    have hb2 : (t : ℤ) < (GRID : ℤ) := by
      have := ht
      rw [hclen] at this
      exact_mod_cast this
    have hb3 : (k : ℤ) < (GRID : ℤ) := by
      have := hkL
      rw [hd.1] at this
      exact_mod_cast this
    have hpair := (hiff (k : ℤ) (t : ℤ) (Int.natCast_nonneg k) hb3
      (Int.natCast_nonneg t) hb2).mp (by rw [hgc]; exact hwh)
    apply hk0
    rw [hIdx0]
    omega

/-- Writing the HERO marker at the centre of a full-size grid holding no
HERO marker establishes the one-HERO-at-centre invariant. -/
theorem set_center (m : Grid) (hd : dims m) (hn : noHeroGrid m) :
    heroInv (setCell m MIDDLE MIDDLE HERO) := by
  refine ⟨dims_setCell m _ _ _ hd, ?_⟩
  intro i j hi hi2 hj hj2
  rw [getCell_setCell_pos m MIDDLE MIDDLE i j HERO hd (by decide) (by decide)
    (by decide) (by decide) hi hj]
  split
  case isTrue hc => exact ⟨fun _ => hc, fun _ => rfl⟩
  case isFalse hc =>
    exact ⟨fun h => absurd h (noHeroGrid_getCell m hn i j), fun h => absurd h hc⟩

/-! ## C5 — preservation of `gridOK` by every grid operation -/

theorem gridOK_setCell (m : Grid) (a b : ℤ) (v : ℕ) (hv : v ≠ HERO)
    (h : gridOK m) : gridOK (setCell m a b v) :=
  ⟨dims_setCell m a b v h.1, noHero_setCell m a b v hv h.2⟩

theorem gridOK_rotateMapX (x : ℤ) (m : Grid) (h : gridOK m) :
    gridOK (rotateMapX x m) := by
  unfold rotateMapX
  refine ⟨⟨?_, ?_⟩, ?_⟩
  · rw [List.length_rotate]
    exact h.1.1
  · intro col hcol
    exact h.1.2 col (List.mem_rotate.mp hcol)
  · intro col hcol
    exact h.2 col (List.mem_rotate.mp hcol)

theorem dequeRotate_length (n : ℤ) (l : List ℕ) :
    (dequeRotate n l).length = l.length := by
  unfold dequeRotate
  exact List.length_rotate l _

theorem dequeRotate_mem (n : ℤ) (l : List ℕ) (v : ℕ) (h : v ∈ dequeRotate n l) :
    v ∈ l := by
  unfold dequeRotate at h
  exact List.mem_rotate.mp h

theorem gridOK_rotateMapY (y : ℤ) (m : Grid) (h : gridOK m) :
    gridOK (rotateMapY y m) := by
  unfold rotateMapY
  refine ⟨⟨?_, ?_⟩, ?_⟩
  · rw [List.length_map]
    exact h.1.1
  · intro col hcol
    obtain ⟨c0, hc0, hmap⟩ := List.mem_map.mp hcol
    rw [← hmap, dequeRotate_length]
    exact h.1.2 c0 hc0
  · intro col hcol w hw
    obtain ⟨c0, hc0, hmap⟩ := List.mem_map.mp hcol
    rw [← hmap] at hw
    exact h.2 c0 hc0 w (dequeRotate_mem _ _ _ hw)

theorem cell_length (b u : Bool) : (cell b u).length = CELL_WIDTH := by
  cases b <;> cases u <;> rfl

theorem cell_ne_hero (b u : Bool) (v : ℕ) (h : v ∈ cell b u) : v ≠ HERO := by
  cases b <;> cases u <;>
    (simp [cell, ROAD_WIDTH, WALL, EMPTY, HERO] at h ⊢; omega)

theorem cell_getD_ne_hero (b u : Bool) (j : ℕ) :
    (cell b u).getD j EMPTY ≠ HERO := by
  rcases getD_mem_or (cell b u) j EMPTY with h | h
  · exact cell_ne_hero b u _ h
  · rw [h]
    decide

theorem rowfold_length {α : Type} (f : ℕ → List α) (L : ℕ)
    (hf : ∀ k, (f k).length = L) :
    ∀ (n : ℕ) (init : List α),
      ((List.range n).foldl (fun acc k => acc ++ f k) init).length =
        init.length + L * n := by
  intro n
  induction n with
  | zero => intro init; simp
  | succ k ihn =>
      intro init
      rw [List.range_succ, List.foldl_append]
      dsimp only [List.foldl]
      rw [List.length_append, ihn init, hf k]
      ring

theorem rowfold_mem {α : Type} (f : ℕ → List α) (P : α → Prop)
    (hf : ∀ k a, a ∈ f k → P a) :
    ∀ (n : ℕ) (init : List α), (∀ a ∈ init, P a) →
      ∀ a ∈ (List.range n).foldl (fun acc k => acc ++ f k) init, P a := by
  intro n
  induction n with
  | zero => intro init hinit; simpa using hinit
  | succ k ihn =>
      intro init hinit a ha
      rw [List.range_succ, List.foldl_append] at ha
      dsimp only [List.foldl] at ha
      rcases List.mem_append.mp ha with h | h
      · exact ihn init hinit a h
      · exact hf k a h

theorem newColumn_length (bits : ℕ → Bool) :
    (newColumn bits).length = CELL_WIDTH := by
  unfold newColumn
  dsimp only
  rw [List.length_append, List.length_replicate, List.length_replicate]
  decide

theorem newColumn_cols (bits : ℕ → Bool) :
    ∀ col ∈ newColumn bits, col.length = GRID ∧ ∀ v ∈ col, v ≠ HERO := by
  unfold newColumn
  dsimp only
  intro col hcol
  have hup : ∀ u : Bool,
      (((List.range MAZE_SIZE).foldl
        (fun acc k => acc ++ cell (bits k) u) []).length = GRID) ∧
      (∀ v ∈ (List.range MAZE_SIZE).foldl
        (fun acc k => acc ++ cell (bits k) u) [], v ≠ HERO) := by
    intro u
    constructor
    · rw [rowfold_length (fun k => cell (bits k) u) CELL_WIDTH
        (fun k => cell_length (bits k) u) MAZE_SIZE []]
      rfl
    · exact rowfold_mem (fun k => cell (bits k) u) (fun v => v ≠ HERO)
        (fun k v hv => cell_ne_hero (bits k) u v hv) MAZE_SIZE [] (by simp)
  rcases List.mem_append.mp hcol with h | h
  · rw [List.eq_of_mem_replicate h]
    exact hup true
  · rw [List.eq_of_mem_replicate h]
    exact hup false

theorem gridOK_writeHalf (c : ℤ) (half : List ℕ)
    (hh : ∀ j, half.getD j EMPTY ≠ HERO) (m : Grid) (h : gridOK m) :
    gridOK (writeHalf c half m) := by
  unfold writeHalf
  refine foldl_preserve gridOK _ ?_ _ _ h
  intro m1 j hm1
  refine foldl_preserve gridOK _ ?_ _ _ hm1
  intro m2 k hm2
  exact gridOK_setCell _ _ _ _ (hh j) hm2

theorem gridOK_regenRows (bits : ℕ → Bool) (rx : ℤ) (m : Grid)
    (h : gridOK m) : gridOK (regenRows bits rx m) := by
  unfold regenRows
  refine foldl_preserve gridOK _ ?_ _ _ h
  intro m1 i hm1
  dsimp only
  exact gridOK_writeHalf _ _ (fun j => cell_getD_ne_hero (bits i) false j) _
    (gridOK_writeHalf _ _ (fun j => cell_getD_ne_hero (bits i) true j) _ hm1)

theorem gridOK_rotateRegenX (st : MazeState) (bits : ℕ → Bool)
    (h : gridOK st.map) : gridOK (rotateRegenX st bits).map := by
  unfold rotateRegenX
  split
  case isTrue hx =>
    dsimp only
    have hL : st.map.length = GRID := h.1.1
    have hm1len : (List.take (st.map.length - CELL_WIDTH) st.map ++
        newColumn bits).length = GRID := by
      rw [List.length_append, List.length_take, newColumn_length, hL]
      decide
    have hm1cols : ∀ col ∈ List.take (st.map.length - CELL_WIDTH) st.map ++
        newColumn bits, col.length = GRID ∧ ∀ v ∈ col, v ≠ HERO := by
      intro col hcol
      rcases List.mem_append.mp hcol with hc | hc
      · have hcm : col ∈ st.map := List.take_subset _ _ hc
        exact ⟨h.1.2 col hcm, fun v hv => h.2 col hcm v hv⟩
      · exact newColumn_cols bits col hc
    refine ⟨⟨?_, ?_⟩, ?_⟩
    · rw [List.length_append, List.length_take, List.length_map,
        List.length_drop, hm1len]
      decide
    · intro col hcol
      rcases List.mem_append.mp hcol with hc | hc
      · exact (hm1cols col (List.take_subset _ _ hc)).1
      · obtain ⟨c0, hc0, hmap⟩ := List.mem_map.mp hc
        rw [← hmap, dequeRotate_length]
        exact (hm1cols c0 (List.drop_subset _ _ hc0)).1
    · intro col hcol v hv
      rcases List.mem_append.mp hcol with hc | hc
      · exact (hm1cols col (List.take_subset _ _ hc)).2 v hv
      · obtain ⟨c0, hc0, hmap⟩ := List.mem_map.mp hc
        rw [← hmap] at hv
        exact (hm1cols c0 (List.drop_subset _ _ hc0)).2 v
          (dequeRotate_mem _ _ _ hv)
  case isFalse => exact h

theorem gridOK_rotateRegenY (st : MazeState) (bits : ℕ → Bool)
    (h : gridOK st.map) : gridOK (rotateRegenY st bits).map := by
  unfold rotateRegenY
  split
  · exact gridOK_regenRows _ _ _ h
  · exact h

theorem gridOK_rotateRegen (st : MazeState) (bits : ℕ → Bool)
    (h : gridOK st.map) : gridOK (rotateRegen st bits).map := by
  unfold rotateRegen
  exact gridOK_rotateRegenY _ _ (gridOK_rotateRegenX _ _ h)

theorem gridOK_rotateCore (st : MazeState) (x y : ℤ) (h : gridOK st.map) :
    gridOK (rotateCore st x y).map := by
  unfold rotateCore
  dsimp only
  have h0 : gridOK (st.enemies.foldl (fun m e => setCell m e.x e.y EMPTY) st.map) :=
    foldl_preserve gridOK _ (fun m e hm => gridOK_setCell _ _ _ _ (by decide) hm)
      _ _ h
  split <;> split <;> dsimp only
  · exact h0
  · exact gridOK_rotateMapX _ _ h0
  · exact gridOK_rotateMapY _ _ h0
  · exact gridOK_rotateMapY _ _ (gridOK_rotateMapX _ _ h0)

theorem gridOK_addEnemyLoop (t : ℝ) (ch : List ℕ) :
    ∀ (walls : List (ℤ × ℤ)) (es : List Enemy) (m : Grid), gridOK m →
      gridOK (addEnemyLoop t ch walls es m).2 := by
  induction ch with
  | nil => intro _ _ _ h; exact h
  | cons c rest ih =>
      intro walls es m h
      unfold addEnemyLoop
      split
      · dsimp only
        split
        · exact ih _ _ _ h
        · exact ih _ _ _ (gridOK_setCell _ _ _ _ (by decide) h)
      · exact h

theorem gridOK_addEnemy (st : MazeState) (c : List ℕ) (h : gridOK st.map) :
    gridOK (addEnemy st c).map := by
  unfold addEnemy
  dsimp only
  exact gridOK_addEnemyLoop _ _ _ _ _ h

theorem gridOK_rotateRespawn (st : MazeState) (x y : ℤ) (c : List ℕ)
    (h : gridOK st.map) : gridOK (rotateRespawn st x y c).map := by
  unfold rotateRespawn
  dsimp only
  exact gridOK_addEnemy _ _ h

theorem gridOK_rotate (st : MazeState) (x y : ℤ) (bits : ℕ → Bool)
    (c : List ℕ) (h : gridOK st.map) : gridOK (rotate st x y bits c).map := by
  unfold rotate
  split
  · exact h
  · exact gridOK_rotateRegen _ _ (gridOK_rotateRespawn _ _ _ _
      (gridOK_rotateCore _ _ _ h))

/-! ## C5 — the hero marker through `add_enemy`, `slash` and `update` -/

theorem wallsOf_mem (st : MazeState) :
    ∀ w ∈ wallsOf st, getCell st.map w.1 w.2 = WALL := by
  unfold wallsOf
  suffices haux : ∀ L : List ℤ, ∀ w ∈ L.foldr
      (fun i acc => ((st.rangey.filter
        (fun j => decide (getCell st.map i j = WALL))).map (fun j => (i, j))) ++ acc)
      [], getCell st.map w.1 w.2 = WALL by
    exact haux st.rangex
  intro L
  induction L with
  | nil => intro w hw; simp at hw
  | cons i L ih =>
      intro w hw
      dsimp only [List.foldr] at hw
      rcases List.mem_append.mp hw with h | h
      · obtain ⟨j, hj, hw2⟩ := List.mem_map.mp h
        have hj2 := (List.mem_filter.mp hj).2
        rw [← hw2]
        exact of_decide_eq_true hj2
      · exact ih w h

theorem heroInv_addEnemyLoop (t : ℝ) (ch : List ℕ) :
    ∀ (walls : List (ℤ × ℤ)) (es : List Enemy) (m : Grid), heroInv m →
      (∀ w ∈ walls, getCell m w.1 w.2 ≠ HERO) →
      heroInv (addEnemyLoop t ch walls es m).2 := by
  induction ch with
  | nil => intro _ _ _ h _; exact h
  | cons c rest ih =>
      intro walls es m h hw
      unfold addEnemyLoop
      split
      case isTrue hcond =>
        dsimp only
        split
        · exact ih _ _ _ h hw
        · have hwl : 0 < walls.length := List.length_pos.mpr hcond.1
          have hidx : c % walls.length < walls.length := Nat.mod_lt c hwl
          have hwm : walls.getD (c % walls.length) (0, 0) ∈ walls := by
            rw [List.getD_eq_getElem walls (0, 0) hidx]
            exact List.getElem_mem hidx
          apply ih
          · exact heroInv_setCell_ne _ _ _ _ h (by decide) (hw _ hwm)
          · intro w' hw'
            rcases getCell_setCell_cases m
              (walls.getD (c % walls.length) (0, 0)).1
              (walls.getD (c % walls.length) (0, 0)).2 ENEMY w'.1 w'.2 with hc | hc
            · rw [hc]
              decide
            · rw [hc]
              exact hw _ (List.erase_subset _ _ hw')
      case isFalse => exact h

theorem heroInv_addEnemy (st : MazeState) (c : List ℕ) (h : heroInv st.map) :
    heroInv (addEnemy st c).map := by
  unfold addEnemy
  dsimp only
  apply heroInv_addEnemyLoop _ _ _ _ _ h
  intro w hw
  rw [wallsOf_mem st w hw]
  decide

theorem heroInv_slash (st : MazeState) (c : List ℕ) (h : heroInv st.map) :
    heroInv (slash st c).map := by
  unfold slash
  dsimp only
  split
  · exact heroInv_addEnemy _ _ h
  · exact h

theorem trackBullets_map (st : MazeState) (t : ℝ) (p : BulletParams) :
    (trackBullets st t p).map = st.map := rfl

theorem update_heroInv (st : MazeState) (fps : ℝ) (bits : ℕ → Bool)
    (rc sc : List ℕ) (time : ℝ) (params : BulletParams)
    (h : heroInv st.map) :
    heroInv (update st fps bits rc sc time params).1.map := by
  unfold update
  dsimp only
  rw [trackBullets_map]
  apply heroInv_slash
  dsimp only
  split
  case isTrue hmove =>
    dsimp only
    refine set_center _ ?_ ?_
    · refine (gridOK_rotate _ _ _ bits rc ?_).1
      exact clear_center st.map h
    · refine (gridOK_rotate _ _ _ bits rc ?_).2
      exact clear_center st.map h
  case isFalse => exact h

theorem mkMaze_heroInv (w h : ℤ) (fps heroR spin : ℝ) (bits : ℕ → Bool)
    (choices : List ℕ) :
    heroInv (mkMaze w h fps heroR spin bits choices).map := by
  unfold mkMaze
  dsimp only
  have hm0 : gridOK ((List.range MAZE_SIZE).foldl
      (fun m k => m ++ newColumn (fun i => bits (MAZE_SIZE * k + i))) []) := by
    refine ⟨⟨?_, ?_⟩, ?_⟩
    · rw [rowfold_length (fun k => newColumn (fun i => bits (MAZE_SIZE * k + i)))
        CELL_WIDTH (fun k => newColumn_length _) MAZE_SIZE []]
      decide
    · intro col hcol
      exact (rowfold_mem _ (fun col => col.length = GRID ∧ ∀ v ∈ col, v ≠ HERO)
        (fun k col hc => newColumn_cols _ col hc) MAZE_SIZE [] (by simp)
        col hcol).1
    · intro col hcol
      exact (rowfold_mem _ (fun col => col.length = GRID ∧ ∀ v ∈ col, v ≠ HERO)
        (fun k col hc => newColumn_cols _ col hc) MAZE_SIZE [] (by simp)
        col hcol).2
  refine set_center _ ?_ ?_
  · exact (gridOK_addEnemy _ choices hm0).1
  · exact (gridOK_addEnemy _ choices hm0).2

/-- C5: after construction of the maze, and after every frame update of a
state whose grid satisfies the invariant, exactly one cell of the grid
holds the HERO marker, and that cell is the fixed logical centre
`(MIDDLE, MIDDLE)` — whether or not a move was accepted and whether or not
rotation or edge regeneration occurred. -/
theorem hero_marker_at_center :
    (∀ (w h : ℤ) (fps heroR spin : ℝ) (bits : ℕ → Bool) (choices : List ℕ),
      heroInv (mkMaze w h fps heroR spin bits choices).map) ∧
    (∀ (st : MazeState) (fps : ℝ) (bits : ℕ → Bool) (rc sc : List ℕ)
      (time : ℝ) (params : BulletParams),
      heroInv st.map → heroInv (update st fps bits rc sc time params).1.map) :=
  ⟨fun w h fps heroR spin bits choices => mkMaze_heroInv w h fps heroR spin bits choices,
   fun st fps bits rc sc time params hinv => update_heroInv st fps bits rc sc time params hinv⟩

/-- C5, witness: the hero-marked full-size grid satisfies the invariant,
and a quiet frame update on it preserves the invariant. -/
theorem hero_marker_at_center_witness :
    heroInv heroState.map ∧
    heroInv (update heroState 30 (fun _ => false) [] [] 0 ⟨0, 1⟩).1.map := by
  have hbase : dims emptyGrid120 ∧ noHeroGrid emptyGrid120 := by
    constructor
    · constructor
      · exact List.length_replicate _ _
      · intro col hcol
        rw [List.eq_of_mem_replicate hcol]
        exact List.length_replicate _ _
    · intro col hcol v hv
      rw [List.eq_of_mem_replicate hcol] at hv
      rw [List.eq_of_mem_replicate hv]
      decide
  have hinv : heroInv heroState.map := set_center emptyGrid120 hbase.1 hbase.2
  exact ⟨hinv, hero_marker_at_center.2 heroState 30 (fun _ => false) [] [] 0
    ⟨0, 1⟩ hinv⟩

end BrutalMaze
